import Mathlib

/-
Verification of the fragment-flattening core in
src/veusz/helpers/src/threed/objects.cpp.

The scene-object classes (Triangle, PolyLine, Mesh, Points, ObjectContainer)
and their getFragments methods are embedded shallowly below.  Scalars of type
double are modelled by `Dbl`: an exact integer for finite values plus the
three non-finite IEEE values (quiet NaN, +inf, -inf).  Rounding, overflow of
finite arithmetic and signed zero are not modelled, and the finite carrier is
the integers (kernel-computable, and every concrete input of the spec's test
properties is integral); the code's control flow inspects scalars only
through the finiteness test and, for inf times x, the sign, so no theorem
below depends on the finite carrier beyond its ring operations.  The
arithmetic of non-finite values follows IEEE 754 so that the per-component
finiteness test used by the code behaves as in the source.

The vector/matrix support types (Vec3, Vec4, Mat4, vec4to3, isfinite) and the
Fragment record live in headers that are not part of the sources here
(math3d.h, fragment.h); they are modelled from the spec, which treats them as
primitives supplying multiply, per-component finiteness testing and indexing,
and which fixes the Fragment fields and the sequence-index discipline
(index 0 at construction, +1 per bumpIndex).  C++ vector indexing, which the
code only performs in bounds, is totalised with List.getD and a default.
-/

/-- Model of a C++ double: an exact integer when finite, or one of the
non-finite IEEE values. -/
inductive Dbl where
  | fin (q : ℤ)
  | nan
  | inf
  | ninf
deriving DecidableEq, Repr

/-- Per-component finiteness test (std::isfinite). -/
def Dbl.isfinite : Dbl → Bool
  | .fin _ => true
  | _ => false

/-- IEEE addition on the model (exact in the finite case). -/
def Dbl.add : Dbl → Dbl → Dbl
  | .fin a, .fin b => .fin (a + b)
  | .nan, _ => .nan
  | _, .nan => .nan
  | .inf, .ninf => .nan
  | .ninf, .inf => .nan
  | .inf, _ => .inf
  | _, .inf => .inf
  | .ninf, _ => .ninf
  | _, .ninf => .ninf

/-- IEEE multiplication on the model (exact in the finite case). -/
def Dbl.mul : Dbl → Dbl → Dbl
  | .fin a, .fin b => .fin (a * b)
  | .nan, _ => .nan
  | _, .nan => .nan
  | .inf, .inf => .inf
  | .inf, .ninf => .ninf
  | .ninf, .inf => .ninf
  | .ninf, .ninf => .inf
  | .inf, .fin a => if 0 < a then .inf else if a < 0 then .ninf else .nan
  | .fin a, .inf => if 0 < a then .inf else if a < 0 then .ninf else .nan
  | .ninf, .fin a => if 0 < a then .ninf else if a < 0 then .inf else .nan
  | .fin a, .ninf => if 0 < a then .ninf else if a < 0 then .inf else .nan

/-- Modelled from the spec: 3-component vector of the math library
(math3d.h is not among the sources). -/
structure Vec3 where
  x : Dbl
  y : Dbl
  z : Dbl
deriving DecidableEq, Repr

def Vec3.add (a b : Vec3) : Vec3 :=
  ⟨a.x.add b.x, a.y.add b.y, a.z.add b.z⟩

def Vec3.isfinite (a : Vec3) : Bool :=
  a.x.isfinite && a.y.isfinite && a.z.isfinite

/-- Modelled from the spec: 4-component homogeneous vector. -/
structure Vec4 where
  c0 : Dbl
  c1 : Dbl
  c2 : Dbl
  c3 : Dbl
deriving DecidableEq, Repr

def Vec4.add (a b : Vec4) : Vec4 :=
  ⟨a.c0.add b.c0, a.c1.add b.c1, a.c2.add b.c2, a.c3.add b.c3⟩

def Vec4.isfinite (a : Vec4) : Bool :=
  a.c0.isfinite && a.c1.isfinite && a.c2.isfinite && a.c3.isfinite

/-- Indexed read pt(i); the code only uses indices below 4. -/
def Vec4.get (v : Vec4) : Nat → Dbl
  | 0 => v.c0
  | 1 => v.c1
  | 2 => v.c2
  | _ => v.c3

/-- Indexed write pt(i) = a; the code only uses indices below 4. -/
def Vec4.set (v : Vec4) : Nat → Dbl → Vec4
  | 0, a => { v with c0 := a }
  | 1, a => { v with c1 := a }
  | 2, a => { v with c2 := a }
  | _, a => { v with c3 := a }

/-- Dot product of two 4-vectors, summed left to right. -/
def Vec4.dot (a b : Vec4) : Dbl :=
  (((a.c0.mul b.c0).add (a.c1.mul b.c1)).add (a.c2.mul b.c2)).add (a.c3.mul b.c3)

/-- Modelled from the spec: 4x4 homogeneous transform matrix, as 4 rows. -/
structure Mat4 where
  r0 : Vec4
  r1 : Vec4
  r2 : Vec4
  r3 : Vec4
deriving DecidableEq, Repr

/-- Matrix times column vector. -/
def Mat4.apply (m : Mat4) (v : Vec4) : Vec4 :=
  ⟨m.r0.dot v, m.r1.dot v, m.r2.dot v, m.r3.dot v⟩

def Mat4.col (m : Mat4) (j : Nat) : Vec4 :=
  ⟨m.r0.get j, m.r1.get j, m.r2.get j, m.r3.get j⟩

/-- Matrix product; row i of the product is row i of m dotted with the
columns of n. -/
def Mat4.mul (m n : Mat4) : Mat4 :=
  ⟨⟨m.r0.dot (n.col 0), m.r0.dot (n.col 1), m.r0.dot (n.col 2), m.r0.dot (n.col 3)⟩,
   ⟨m.r1.dot (n.col 0), m.r1.dot (n.col 1), m.r1.dot (n.col 2), m.r1.dot (n.col 3)⟩,
   ⟨m.r2.dot (n.col 0), m.r2.dot (n.col 1), m.r2.dot (n.col 2), m.r2.dot (n.col 3)⟩,
   ⟨m.r3.dot (n.col 0), m.r3.dot (n.col 1), m.r3.dot (n.col 2), m.r3.dot (n.col 3)⟩⟩

/-- Modelled from the spec: drop to the 3 spatial components ("up to 3
transformed 3-component coordinates"); the spec states no further contract
for the conversion. -/
def vec4to3 (v : Vec4) : Vec3 :=
  ⟨v.c0, v.c1, v.c2⟩

/-- Identity transform, used for concrete test inputs. -/
def Mat4.idM : Mat4 :=
  ⟨⟨.fin 1, .fin 0, .fin 0, .fin 0⟩,
   ⟨.fin 0, .fin 1, .fin 0, .fin 0⟩,
   ⟨.fin 0, .fin 0, .fin 1, .fin 0⟩,
   ⟨.fin 0, .fin 0, .fin 0, .fin 1⟩⟩

/-- Fragment kinds FR_TRIANGLE, FR_LINESEG, FR_PATH used by objects.cpp. -/
inductive FragmentType where
  | FR_TRIANGLE
  | FR_LINESEG
  | FR_PATH
deriving DecidableEq, Repr

/-- Modelled from the spec: the Fragment record of fragment.h (not among the
sources).  Style handles and the path-shape descriptor carry no structure here;
`params` models the Points path parameters (path reference, scaleedges).
The object back-reference of the C++ Fragment is an address and is not part
of the embedding: the fragments of one object are exactly the ones appended
by that object's getFragments call.  Per the spec the sequence index starts
at 0 when the Fragment is constructed and bumpIndex adds one. -/
structure Fragment where
  type : FragmentType
  surfaceprop : Option Nat
  lineprop : Option Nat
  p0 : Vec3
  p1 : Vec3
  p2 : Vec3
  pathsize : Dbl
  params : Option (Nat × Bool)
  index : Nat
deriving DecidableEq, Repr

def Fragment.bumpIndex (f : Fragment) : Fragment :=
  { f with index := f.index + 1 }

/-- Default-constructed Vec3 (zeroed), the initial value of Fragment points. -/
def zeroV3 : Vec3 := ⟨.fin 0, .fin 0, .fin 0⟩

/-- Totalising default for reads of stored Vec4 points. -/
def v4def : Vec4 := ⟨.fin 0, .fin 0, .fin 0, .fin 1⟩

/-- Counted loop: `loopN body i n s` runs body on indices i, i+1, ...,
i+n-1 in order, threading the state; `for(j=i; j<i+n; ++j)`. -/
def loopN {σ : Type} (body : Nat → σ → σ) : Nat → Nat → σ → σ
  | _, 0, s => s
  | i, n + 1, s => loopN body (i + 1) n (body i s)

-- ---------------------------------------------------------------------------
-- Triangle
-- ---------------------------------------------------------------------------

structure Triangle where
  p0 : Vec4
  p1 : Vec4
  p2 : Vec4
  surfaceprop : Option Nat
deriving DecidableEq, Repr

/-- The one fragment Triangle::getFragments builds: FR_TRIANGLE, surface
style set, line style null, the 3 stored points transformed by outerM. -/
def triFrag (t : Triangle) (outerM : Mat4) : Fragment :=
  { type := .FR_TRIANGLE, surfaceprop := t.surfaceprop, lineprop := none,
    p0 := vec4to3 (outerM.apply t.p0), p1 := vec4to3 (outerM.apply t.p1),
    p2 := vec4to3 (outerM.apply t.p2),
    pathsize := .fin 0, params := none, index := 0 }

/-- Triangle::getFragments: push the fragment unconditionally. -/
def Triangle.getFragments (t : Triangle) (outerM : Mat4) (v : List Fragment) :
    List Fragment :=
  v ++ [triFrag t outerM]

-- ---------------------------------------------------------------------------
-- PolyLine
-- ---------------------------------------------------------------------------

structure PolyLine where
  points : List Vec4
  lineprop : Option Nat
deriving DecidableEq, Repr

/-- PolyLine::addPoints: append min(|x|,|y|,|z|) points (x[i],y[i],z[i],1). -/
def PolyLine.addPoints (pl : PolyLine) (x y z : List Dbl) : PolyLine :=
  let size := min x.length (min y.length z.length)
  { pl with points := pl.points ++ (List.range size).map (fun i =>
      ⟨x.getD i (.fin 0), y.getD i (.fin 0), z.getD i (.fin 0), .fin 1⟩) }

/-- The fragment PolyLine::getFragments and Mesh::getLineFragments start
from: FR_LINESEG, no surface style, the given line style, index 0. -/
def lineProto (lp : Option Nat) : Fragment :=
  { type := .FR_LINESEG, surfaceprop := none, lineprop := lp,
    p0 := zeroV3, p1 := zeroV3, p2 := zeroV3,
    pathsize := .fin 0, params := none, index := 0 }

/-- One iteration of the segment-producing loop shared by
PolyLine::getFragments and Mesh::getLineFragments (the fragment part):
shuffle points[1] := points[0], points[0] := the new transformed point
trp j, and push-and-bump when j > 0 and the point sum is finite. -/
def segStep (trp : Nat → Vec3) (j : Nat) (st : Fragment × List Fragment) :
    Fragment × List Fragment :=
  let g : Fragment := { st.1 with p1 := st.1.p0, p0 := trp j }
  if 0 < j ∧ (g.p0.add g.p1).isfinite then (g.bumpIndex, st.2 ++ [g])
  else (g, st.2)

/-- PolyLine::getFragments. -/
def PolyLine.getFragments (pl : PolyLine) (outerM : Mat4) (v : List Fragment) :
    List Fragment :=
  (loopN (segStep (fun i => vec4to3 (outerM.apply (pl.points.getD i v4def))))
    0 pl.points.length (lineProto pl.lineprop, v)).2

-- ---------------------------------------------------------------------------
-- Mesh
-- ---------------------------------------------------------------------------

inductive Direction where
  | X_DIRN
  | Y_DIRN
  | Z_DIRN
deriving DecidableEq, Repr

structure Mesh where
  pos1 : List Dbl
  pos2 : List Dbl
  heights : List Dbl
  dirn : Direction
  lineprop : Option Nat
  surfaceprop : Option Nat
deriving DecidableEq, Repr

/-- Mesh::getVecIdxs: (vidx_h, vidx_1, vidx_2) per direction. -/
def Mesh.getVecIdxs (m : Mesh) : Nat × Nat × Nat :=
  match m.dirn with
  | .X_DIRN => (0, 1, 2)
  | .Y_DIRN => (1, 2, 0)
  | .Z_DIRN => (2, 0, 1)

/-- Innermost iteration of Mesh::getLineFragments (the stepi loop): set
pt(vidx_step) and pt(vidx_h), transform, shuffle the fragment points and
push-and-bump when stepi > 0 and the point sum is finite.  State is
(pt, fl, v). -/
def meshLineStep (outerM : Mat4) (m : Mesh) (stepindex consti vs vh : Nat)
    (vec_step : List Dbl) (j : Nat) (st : Vec4 × Fragment × List Fragment) :
    Vec4 × Fragment × List Fragment :=
  let heightsval := m.heights.getD
    (if stepindex = 0 then j * m.pos2.length + consti
     else consti * m.pos2.length + j) (Dbl.fin 0)
  let pt := (st.1.set vs (vec_step.getD j (Dbl.fin 0))).set vh heightsval
  let fl : Fragment := { st.2.1 with p1 := st.2.1.p0, p0 := vec4to3 (outerM.apply pt) }
  if 0 < j ∧ (fl.p0.add fl.p1).isfinite then (pt, fl.bumpIndex, st.2.2 ++ [fl])
  else (pt, fl, st.2.2)

/-- Middle iteration of Mesh::getLineFragments (the consti loop): set
pt(vidx_const) and walk the stepping axis. -/
def meshConstStep (outerM : Mat4) (m : Mesh) (stepindex vs vh vc : Nat)
    (vec_step vec_const : List Dbl) (consti : Nat)
    (st : Vec4 × Fragment × List Fragment) : Vec4 × Fragment × List Fragment :=
  loopN (meshLineStep outerM m stepindex consti vs vh vec_step) 0 vec_step.length
    (st.1.set vc (vec_const.getD consti (Dbl.fin 0)), st.2)

/-- One of the two passes of Mesh::getLineFragments: stepindex 0 steps pos1
against each pos2 value, stepindex 1 steps pos2 against each pos1 value. -/
def Mesh.linePass (m : Mesh) (outerM : Mat4) (stepindex : Nat)
    (st : Vec4 × Fragment × List Fragment) : Vec4 × Fragment × List Fragment :=
  let vidx := m.getVecIdxs
  loopN (meshConstStep outerM m stepindex
      (if stepindex = 0 then vidx.2.1 else vidx.2.2) vidx.1
      (if stepindex = 0 then vidx.2.2 else vidx.2.1)
      (if stepindex = 0 then m.pos1 else m.pos2)
      (if stepindex = 0 then m.pos2 else m.pos1))
    0 (if stepindex = 0 then m.pos2 else m.pos1).length st

/-- Mesh::getLineFragments: nothing if no line style; otherwise the two
passes over one shared pt (initially (0,0,0,1)) and one shared fragment. -/
def Mesh.getLineFragments (m : Mesh) (outerM : Mat4) (v : List Fragment) :
    List Fragment :=
  match m.lineprop with
  | none => v
  | some lp =>
    (loopN (fun stepindex => m.linePass outerM stepindex) 0 2
      (⟨Dbl.fin 0, Dbl.fin 0, Dbl.fin 0, Dbl.fin 1⟩, lineProto (some lp), v)).2.2

/-- The fragment Mesh::getSurfaceFragments starts from: FR_TRIANGLE, the
given surface style, no line style, index 0. -/
def surfProto (sp : Option Nat) : Fragment :=
  { type := .FR_TRIANGLE, surfaceprop := sp, lineprop := none,
    p0 := zeroV3, p1 := zeroV3, p2 := zeroV3,
    pathsize := .fin 0, params := none, index := 0 }

/-- Innermost iteration of Mesh::getSurfaceFragments (the i2 loop): build
the 4 cell corners (the C++ reuses Vec4 locals with w fixed to 1 and
overwrites all three spatial components each iteration, so building each
corner afresh from (0,0,0,1) is the same), skip the cell unless the corner
sum is finite, otherwise push the two triangles and bump twice. -/
def meshSurfStep (outerM : Mat4) (m : Mesh) (i1 i2 : Nat)
    (st : Fragment × List Fragment) : Fragment × List Fragment :=
  let vidx := m.getVecIdxs
  let n2 := m.pos2.length
  let base : Vec4 := v4def
  let p0 := ((base.set vidx.1 (m.heights.getD (i1 * n2 + i2) (Dbl.fin 0))).set
    vidx.2.1 (m.pos1.getD i1 (Dbl.fin 0))).set vidx.2.2 (m.pos2.getD i2 (Dbl.fin 0))
  let p1 := ((base.set vidx.1 (m.heights.getD ((i1 + 1) * n2 + i2) (Dbl.fin 0))).set
    vidx.2.1 (m.pos1.getD (i1 + 1) (Dbl.fin 0))).set vidx.2.2 (m.pos2.getD i2 (Dbl.fin 0))
  let p2 := ((base.set vidx.1 (m.heights.getD (i1 * n2 + (i2 + 1)) (Dbl.fin 0))).set
    vidx.2.1 (m.pos1.getD i1 (Dbl.fin 0))).set vidx.2.2 (m.pos2.getD (i2 + 1) (Dbl.fin 0))
  let p3 := ((base.set vidx.1 (m.heights.getD ((i1 + 1) * n2 + (i2 + 1)) (Dbl.fin 0))).set
    vidx.2.1 (m.pos1.getD (i1 + 1) (Dbl.fin 0))).set vidx.2.2 (m.pos2.getD (i2 + 1) (Dbl.fin 0))
  if (((p0.add p1).add p2).add p3).isfinite then
    let fA : Fragment := { st.1 with
      p1 := vec4to3 (outerM.apply p1)
      p2 := vec4to3 (outerM.apply p2)
      p0 := vec4to3 (outerM.apply p0) }
    let fB : Fragment := { fA.bumpIndex with p0 := vec4to3 (outerM.apply p3) }
    (fB.bumpIndex, st.2 ++ [fA, fB])
  else st

/-- Mesh::getSurfaceFragments: nothing if no surface style; otherwise every
cell (i1,i1+1)x(i2,i2+1), i.e. i1+1 < |pos1| and i2+1 < |pos2|. -/
def Mesh.getSurfaceFragments (m : Mesh) (outerM : Mat4) (v : List Fragment) :
    List Fragment :=
  match m.surfaceprop with
  | none => v
  | some sp =>
    (loopN (fun i1 st => loopN (meshSurfStep outerM m i1) 0 (m.pos2.length - 1) st)
      0 (m.pos1.length - 1) (surfProto (some sp), v)).2

/-- Mesh::getFragments: line fragments, then surface fragments. -/
def Mesh.getFragments (m : Mesh) (outerM : Mat4) (v : List Fragment) :
    List Fragment :=
  m.getSurfaceFragments outerM (m.getLineFragments outerM v)

-- ---------------------------------------------------------------------------
-- Points
-- ---------------------------------------------------------------------------

structure Points where
  x : List Dbl
  y : List Dbl
  z : List Dbl
  sizes : List Dbl
  path : Nat
  scaleedges : Bool
  surfacefill : Option Nat
  lineedge : Option Nat
deriving DecidableEq, Repr

/-- The fragment Points::getFragments starts from: FR_PATH, fill and edge
styles, the path parameters, pathsize 1, index 0. -/
def pathProto (ps : Points) : Fragment :=
  { type := .FR_PATH, surfaceprop := ps.surfacefill, lineprop := ps.lineedge,
    p0 := zeroV3, p1 := zeroV3, p2 := zeroV3,
    pathsize := .fin 1, params := some (ps.path, ps.scaleedges), index := 0 }

/-- One iteration of the Points::getFragments loop: transform the point,
overwrite pathsize from sizes when sizes is non-empty, and push-and-bump
when the transformed point is finite. -/
def ptsStep (outerM : Mat4) (x y z sizes : List Dbl) (i : Nat)
    (st : Fragment × List Fragment) : Fragment × List Fragment :=
  let f1 : Fragment := { st.1 with p0 := vec4to3 (outerM.apply
    ⟨x.getD i (Dbl.fin 0), y.getD i (Dbl.fin 0), z.getD i (Dbl.fin 0), Dbl.fin 1⟩) }
  let f2 : Fragment := if sizes.isEmpty then f1
    else { f1 with pathsize := sizes.getD i (Dbl.fin 0) }
  if f2.p0.isfinite then (f2.bumpIndex, st.2 ++ [f2]) else (f2, st.2)

/-- Points::getFragments: size = min(|x|,|y|,|z|), further truncated by
|sizes| when sizes is non-empty. -/
def Points.getFragments (ps : Points) (outerM : Mat4) (v : List Fragment) :
    List Fragment :=
  let size0 := min ps.x.length (min ps.y.length ps.z.length)
  let size := if ps.sizes.isEmpty then size0 else min size0 ps.sizes.length
  (loopN (ptsStep outerM ps.x ps.y ps.z ps.sizes) 0 size (pathProto ps, v)).2

-- ---------------------------------------------------------------------------
-- Object / ObjectContainer
-- ---------------------------------------------------------------------------

/- The polymorphic object tree.  `base` is the abstract Object (whose
getFragments does nothing); `container` holds the local transform objM and
the owned children, in insertion order. -/
mutual
inductive Object where
  | base : Object
  | tri : Triangle → Object
  | poly : PolyLine → Object
  | mesh : Mesh → Object
  | pts : Points → Object
  | container : Mat4 → ObjectList → Object
inductive ObjectList where
  | nil : ObjectList
  | cons : Object → ObjectList → ObjectList
end

/- Virtual dispatch of getFragments; ObjectContainer::getFragments computes
totM = outerM*objM and recurses over the children in order. -/
mutual
def Object.getFragments : Object → Mat4 → List Fragment → List Fragment
  | .base, _, v => v
  | .tri t, outerM, v => t.getFragments outerM v
  | .poly p, outerM, v => p.getFragments outerM v
  | .mesh m, outerM, v => m.getFragments outerM v
  | .pts p, outerM, v => p.getFragments outerM v
  | .container objM cs, outerM, v => ObjectList.getFragments cs (outerM.mul objM) v
def ObjectList.getFragments : ObjectList → Mat4 → List Fragment → List Fragment
  | .nil, _, v => v
  | .cons o rest, outerM, v =>
      ObjectList.getFragments rest outerM (Object.getFragments o outerM v)
end

-- ---------------------------------------------------------------------------
-- Spec-side reference definitions (written from the spec's words, to be
-- proved equal to the code above)
-- ---------------------------------------------------------------------------

def Fragment.addIndex (f : Fragment) (n : Nat) : Fragment :=
  { f with index := f.index + n }

/-- Spec 4.2, on an already-transformed point list: for each consecutive
pair (prev, p) in order, if the pair's coordinates are all finite, emit one
line-segment fragment (slot 0 the later point, slot 1 the earlier) and bump
the carried fragment's sequence index; otherwise skip just that segment. -/
def segSpecAux (fl : Fragment) : Vec3 → List Vec3 → List Fragment
  | _, [] => []
  | prev, p :: rest =>
    if p.isfinite && prev.isfinite then
      { fl with p0 := p, p1 := prev } :: segSpecAux fl.bumpIndex p rest
    else
      segSpecAux fl p rest

/-- Spec 4.2: consecutive finite pairs of a point list; fewer than 2 points
emit nothing. -/
def segSpec (fl : Fragment) : List Vec3 → List Fragment
  | [] => []
  | p :: rest => segSpecAux fl p rest

/-- Spec 4.3 axis bookkeeping: the grid point for indices (i1, i2) -
pos1[i1] populates axis1, pos2[i2] populates axis2 and
heights[i1*|pos2|+i2] populates the height axis; the w component is 1. -/
def Mesh.gridPoint (m : Mesh) (i1 i2 : Nat) : Vec4 :=
  let vidx := m.getVecIdxs
  ((v4def.set vidx.2.1 (m.pos1.getD i1 (Dbl.fin 0))).set
      vidx.2.2 (m.pos2.getD i2 (Dbl.fin 0))).set
    vidx.1 (m.heights.getD (i1 * m.pos2.length + i2) (Dbl.fin 0))

/-- Spec 4.3 wireframe: the walked grid lines, first varying axis1 for each
fixed pos2 value, then varying axis2 for each fixed pos1 value. -/
def Mesh.lines (m : Mesh) : List (List Vec4) :=
  (List.range m.pos2.length).map (fun i2 =>
      (List.range m.pos1.length).map (fun i1 => m.gridPoint i1 i2))
    ++ (List.range m.pos1.length).map (fun i1 =>
      (List.range m.pos2.length).map (fun i2 => m.gridPoint i1 i2))

/-- Spec 4.3 wireframe: each grid line contributes its consecutive finite
pairs as in the PolyLine rule; one sequence index is carried across all the
lines of the wireframe pass. -/
def linesSpec (outerM : Mat4) (fl : Fragment) : List (List Vec4) → List Fragment
  | [] => []
  | ln :: rest =>
    let w := segSpec fl (ln.map (fun p => vec4to3 (outerM.apply p)))
    w ++ linesSpec outerM (fl.addIndex w.length) rest

/-- Spec 4.3 surface: one cell's fragments - skip the whole cell unless all
4 pre-transform corners are finite in every coordinate, otherwise exactly
the two triangles (corner00, corner10, corner01) and
(corner11, corner10, corner01), both bumping the sequence index. -/
def cellFrags (outerM : Mat4) (fs : Fragment) (c00 c10 c01 c11 : Vec4) :
    List Fragment :=
  if c00.isfinite && c10.isfinite && c01.isfinite && c11.isfinite then
    [{ fs with
        p0 := vec4to3 (outerM.apply c00)
        p1 := vec4to3 (outerM.apply c10)
        p2 := vec4to3 (outerM.apply c01) },
     { fs with
        p0 := vec4to3 (outerM.apply c11)
        p1 := vec4to3 (outerM.apply c10)
        p2 := vec4to3 (outerM.apply c01)
        index := fs.index + 1 }]
  else []

/-- Spec 4.3 surface: corner quadruples (c00, c10, c01, c11) of every grid
cell, i1 then i2 in row-major order. -/
def Mesh.surfCells (m : Mesh) : List (Vec4 × Vec4 × Vec4 × Vec4) :=
  (List.range (m.pos1.length - 1)).flatMap (fun i1 =>
    (List.range (m.pos2.length - 1)).map (fun i2 =>
      (m.gridPoint i1 i2, m.gridPoint (i1 + 1) i2,
       m.gridPoint i1 (i2 + 1), m.gridPoint (i1 + 1) (i2 + 1))))

/-- Spec 4.3 surface: fold the cells in order, carrying the sequence index. -/
def surfFold (outerM : Mat4) (fs : Fragment) :
    List (Vec4 × Vec4 × Vec4 × Vec4) → List Fragment
  | [] => []
  | c :: rest =>
    let w := cellFrags outerM fs c.1 c.2.1 c.2.2.1 c.2.2.2
    w ++ surfFold outerM (fs.addIndex w.length) rest

/-- Spec 4.4: for each index i in order build and transform the point, take
pathSize from sizes when present (the carried fragment's initial pathsize,
the fixed default 1, otherwise), and emit exactly when the transformed point
is finite. -/
def pointsSpecAux (outerM : Mat4) (x y z sizes : List Dbl) (fp : Fragment) :
    Nat → Nat → List Fragment
  | _, 0 => []
  | i, n + 1 =>
    let p := vec4to3 (outerM.apply
      ⟨x.getD i (Dbl.fin 0), y.getD i (Dbl.fin 0), z.getD i (Dbl.fin 0), Dbl.fin 1⟩)
    let sz := if sizes.isEmpty then fp.pathsize else sizes.getD i (Dbl.fin 0)
    if p.isfinite then
      { fp with p0 := p, pathsize := sz } :: pointsSpecAux outerM x y z sizes fp.bumpIndex (i + 1) n
    else
      pointsSpecAux outerM x y z sizes fp (i + 1) n

/-- Spec 4.4: the whole Points emission, over min(|x|,|y|,|z|) indices,
further truncated by |sizes| when sizes is non-empty. -/
def pointsSpec (ps : Points) (outerM : Mat4) (fp : Fragment) : List Fragment :=
  let size0 := min ps.x.length (min ps.y.length ps.z.length)
  let size := if ps.sizes.isEmpty then size0 else min size0 ps.sizes.length
  pointsSpecAux outerM ps.x ps.y ps.z ps.sizes fp 0 size

/-- Finiteness of the point slots a fragment's kind uses (3 for a triangle,
2 for a line segment, 1 for a path sprite). -/
def Fragment.usedPointsFinite (f : Fragment) : Bool :=
  match f.type with
  | .FR_TRIANGLE => f.p0.isfinite && f.p1.isfinite && f.p2.isfinite
  | .FR_LINESEG => f.p0.isfinite && f.p1.isfinite
  | .FR_PATH => f.p0.isfinite

/-- Concatenation of the children's own emissions, in insertion order. -/
def ObjectList.emittedCat : ObjectList → Mat4 → List Fragment
  | .nil, _ => []
  | .cons o rest, outerM =>
      Object.getFragments o outerM [] ++ ObjectList.emittedCat rest outerM

-- ---------------------------------------------------------------------------
-- The line-segment loop versus the consecutive-finite-pairs rule
-- ---------------------------------------------------------------------------

/-- The fields of a fragment that the segment loop carries unchanged into
every fragment it emits (everything except the two line endpoints), plus
the running sequence index. -/
def Fragment.segCore (f : Fragment) :
    FragmentType × Option Nat × Option Nat × Vec3 × Dbl × Option (Nat × Bool) × Nat :=
  (f.type, f.surfaceprop, f.lineprop, f.p2, f.pathsize, f.params, f.index)

-- ---------------------------------------------------------------------------
-- Mesh surface: the cell loops versus the two-triangle tessellation rule
-- ---------------------------------------------------------------------------

/-- The fields the surface loop carries unchanged into every fragment it
emits (all three points are overwritten per cell), plus the running index. -/
def Fragment.surfCore (f : Fragment) :
    FragmentType × Option Nat × Option Nat × Dbl × Option (Nat × Bool) × Nat :=
  (f.type, f.surfaceprop, f.lineprop, f.pathsize, f.params, f.index)

/-- The wireframe half of a Mesh emission, per the spec. -/
def Mesh.wireSpec (m : Mesh) (outerM : Mat4) : List Fragment :=
  match m.lineprop with
  | none => []
  | some lp => linesSpec outerM (lineProto (some lp)) m.lines

/-- The surface half of a Mesh emission, per the spec. -/
def Mesh.surfEmit (m : Mesh) (outerM : Mat4) : List Fragment :=
  match m.surfaceprop with
  | none => []
  | some sp => surfFold outerM (surfProto (some sp)) m.surfCells

-- ---------------------------------------------------------------------------
-- Concrete test inputs
-- ---------------------------------------------------------------------------

/-- The spec's polyline example: (0,0,0), (1,0,0), (NaN,0,0), (2,0,0). -/
def plC4 : PolyLine :=
  ⟨[⟨.fin 0, .fin 0, .fin 0, .fin 1⟩, ⟨.fin 1, .fin 0, .fin 0, .fin 1⟩,
    ⟨.nan, .fin 0, .fin 0, .fin 1⟩, ⟨.fin 2, .fin 0, .fin 0, .fin 1⟩], some 7⟩

/-- A triangle whose first point has a NaN coordinate. -/
def triC1 : Triangle :=
  ⟨⟨.nan, .fin 0, .fin 0, .fin 1⟩, ⟨.fin 1, .fin 0, .fin 0, .fin 1⟩,
   ⟨.fin 0, .fin 1, .fin 0, .fin 1⟩, some 0⟩

/-- A transform with a NaN entry. -/
def matC1 : Mat4 :=
  ⟨⟨.nan, .fin 0, .fin 0, .fin 0⟩,
   ⟨.fin 0, .fin 1, .fin 0, .fin 0⟩,
   ⟨.fin 0, .fin 0, .fin 1, .fin 0⟩,
   ⟨.fin 0, .fin 0, .fin 0, .fin 1⟩⟩

/-- A 2x2 mesh with both styles set (flat heights, direction Z). -/
def meshC2 : Mesh :=
  ⟨[.fin 0, .fin 1], [.fin 0, .fin 1],
   [.fin 0, .fin 0, .fin 0, .fin 0], .Z_DIRN, some 0, some 0⟩

/-- The spec's surface example: pos1 = pos2 = [0,1], heights [0,0,0,1],
direction Z, surface style only. -/
def meshC3 : Mesh :=
  ⟨[.fin 0, .fin 1], [.fin 0, .fin 1],
   [.fin 0, .fin 0, .fin 0, .fin 1], .Z_DIRN, none, some 0⟩

/-- The spec's points example: x,y,z of length 3, sizes = [5]. -/
def ptsC7 : Points :=
  ⟨[.fin 0, .fin 1, .fin 2], [.fin 0, .fin 0, .fin 0],
   [.fin 0, .fin 0, .fin 0], [.fin 5], 3, true, some 1, some 2⟩

/-- The spec's triangle example: (0,0,0), (1,0,0), (0,1,0). -/
def triC8 : Triangle :=
  ⟨⟨.fin 0, .fin 0, .fin 0, .fin 1⟩, ⟨.fin 1, .fin 0, .fin 0, .fin 1⟩,
   ⟨.fin 0, .fin 1, .fin 0, .fin 1⟩, some 4⟩

/-- The one segment fragment plC4 emits. -/
def fragC1w : Fragment :=
  { type := .FR_LINESEG, surfaceprop := none, lineprop := some 7,
    p0 := ⟨.fin 1, .fin 0, .fin 0⟩, p1 := ⟨.fin 0, .fin 0, .fin 0⟩, p2 := zeroV3,
    pathsize := .fin 0, params := none, index := 0 }

-- ---------------------------------------------------------------------------
-- Proofs
-- ---------------------------------------------------------------------------

/-- A sum is finite exactly when both summands are: with NaN/inf present the
sum is never finite, so the code's isfinite-of-sum test equals the
all-components-finite test of the spec. -/
theorem dblAdd_isfinite (a b : Dbl) :
    (a.add b).isfinite = (a.isfinite && b.isfinite) := by
  cases a <;> cases b <;> rfl

theorem vec3Add_isfinite (a b : Vec3) :
    (a.add b).isfinite = (a.isfinite && b.isfinite) := by
  simp only [Vec3.add, Vec3.isfinite, dblAdd_isfinite]
  cases a.x.isfinite <;> cases a.y.isfinite <;> cases a.z.isfinite <;>
    cases b.x.isfinite <;> cases b.y.isfinite <;> cases b.z.isfinite <;> rfl

theorem vec4Add_isfinite (a b : Vec4) :
    (a.add b).isfinite = (a.isfinite && b.isfinite) := by
  simp only [Vec4.add, Vec4.isfinite, dblAdd_isfinite]
  cases a.c0.isfinite <;> cases a.c1.isfinite <;> cases a.c2.isfinite <;>
    cases a.c3.isfinite <;> cases b.c0.isfinite <;> cases b.c1.isfinite <;>
    cases b.c2.isfinite <;> cases b.c3.isfinite <;> rfl

-- ---------------------------------------------------------------------------
-- Generic loop and list lemmas
-- ---------------------------------------------------------------------------

theorem loopN_zero {σ : Type} (body : Nat → σ → σ) (i : Nat) (s : σ) :
    loopN body i 0 s = s := rfl

theorem loopN_succ {σ : Type} (body : Nat → σ → σ) (i n : Nat) (s : σ) :
    loopN body i (n + 1) s = loopN body (i + 1) n (body i s) := rfl

theorem range_getD_map {α β : Type} (l : List α) (g : α → β) (d : α) :
    (List.range l.length).map (fun i => g (l.getD i d)) = l.map g := by
  induction l with
  | nil => rfl
  | cons a t ih =>
      simp only [List.length_cons, List.range_succ_eq_map, List.map_cons,
        List.map_map, Function.comp, List.getD_cons_zero, List.getD_cons_succ]
      exact congrArg (List.cons (g a)) ih

theorem Fragment.eq_of_segCore {f g : Fragment} (h : f.segCore = g.segCore)
    (p q : Vec3) :
    ({ f with p0 := p, p1 := q } : Fragment) = { g with p0 := p, p1 := q } := by
  cases f; cases g
  simp only [Fragment.segCore, Prod.mk.injEq] at h
  simp_all

theorem Fragment.segCore_bump {f g : Fragment} (h : f.segCore = g.segCore) :
    f.bumpIndex.segCore = g.bumpIndex.segCore := by
  cases f; cases g
  simp only [Fragment.segCore, Prod.mk.injEq, Fragment.bumpIndex] at h ⊢
  simp_all

theorem segSpecAux_congr {f g : Fragment} (h : f.segCore = g.segCore) :
    ∀ (prev : Vec3) (l : List Vec3), segSpecAux f prev l = segSpecAux g prev l := by
  intro prev l
  induction l generalizing f g prev with
  | nil => rfl
  | cons p rest ih =>
      rw [segSpecAux, segSpecAux]
      by_cases hc : (p.isfinite && prev.isfinite) = true
      · rw [if_pos hc, if_pos hc, Fragment.eq_of_segCore h,
          ih (Fragment.segCore_bump h)]
      · rw [if_neg hc, if_neg hc, ih h]

theorem Fragment.segCore_addIndex_congr {f g : Fragment}
    (h : f.segCore = g.segCore) (n : Nat) :
    (f.addIndex n).segCore = (g.addIndex n).segCore := by
  cases f; cases g
  simp only [Fragment.segCore, Prod.mk.injEq, Fragment.addIndex] at h ⊢
  simp_all

theorem segSpecAux_nil (fl : Fragment) (prev : Vec3) : segSpecAux fl prev [] = [] := rfl

theorem segSpecAux_cons (fl : Fragment) (prev p : Vec3) (rest : List Vec3) :
    segSpecAux fl prev (p :: rest)
      = if p.isfinite && prev.isfinite then
          { fl with p0 := p, p1 := prev } :: segSpecAux fl.bumpIndex p rest
        else segSpecAux fl p rest := rfl

/-- Running the segment loop on indices i, i+1, ..., i+n-1 with 0 < i and
the previous transformed point already in slot 0 appends exactly the
consecutive-finite-pair fragments of the remaining points, and advances the
carried fragment's bookkeeping by the number emitted. -/
theorem segLoop_aux (trp : Nat → Vec3) :
    ∀ (n i : Nat) (f : Fragment) (v : List Fragment) (prev : Vec3),
      f.p0 = prev → 0 < i →
      ∃ fE : Fragment,
        loopN (segStep trp) i n (f, v)
          = (fE, v ++ segSpecAux f prev ((List.range' i n).map trp))
        ∧ fE.segCore
          = (f.addIndex (segSpecAux f prev ((List.range' i n).map trp)).length).segCore := by
  intro n
  induction n with
  | zero =>
      intro i f v prev _ _
      refine ⟨f, ?_, ?_⟩
      · rw [loopN_zero]
        rw [show (List.range' i 0).map trp = [] from rfl, segSpecAux_nil, List.append_nil]
      · rw [show (List.range' i 0).map trp = [] from rfl, segSpecAux_nil]
        simp [Fragment.addIndex, Fragment.segCore]
  | succ n ih =>
      intro i f v prev hp hi
      have hrange : (List.range' i (n + 1)).map trp
          = trp i :: (List.range' (i + 1) n).map trp := by
        rw [List.range'_succ, List.map_cons]
      have hgcore : ({ f with p1 := f.p0, p0 := trp i } : Fragment).segCore = f.segCore := rfl
      by_cases hc : ((trp i).isfinite && prev.isfinite) = true
      · have hcond : (0 < i ∧ ((({ f with p1 := f.p0, p0 := trp i } : Fragment).p0.add
              ({ f with p1 := f.p0, p0 := trp i } : Fragment).p1).isfinite = true)) :=
          ⟨hi, by
            show ((trp i).add f.p0).isfinite = true
            rw [hp, vec3Add_isfinite]; exact hc⟩
        have hstep : segStep trp i (f, v)
            = (({ f with p1 := f.p0, p0 := trp i } : Fragment).bumpIndex,
               v ++ [({ f with p1 := f.p0, p0 := trp i } : Fragment)]) := by
          simp only [segStep]
          rw [if_pos hcond]
        obtain ⟨fE, hE, hcore⟩ := ih (i + 1)
          ({ f with p1 := f.p0, p0 := trp i } : Fragment).bumpIndex
          (v ++ [({ f with p1 := f.p0, p0 := trp i } : Fragment)]) (trp i) rfl (Nat.succ_pos i)
        have hbump : (({ f with p1 := f.p0, p0 := trp i } : Fragment).bumpIndex).segCore
            = f.bumpIndex.segCore := Fragment.segCore_bump hgcore
        have hspec : segSpecAux f prev ((List.range' i (n + 1)).map trp)
            = ({ f with p0 := trp i, p1 := prev } : Fragment)
              :: segSpecAux f.bumpIndex (trp i) ((List.range' (i + 1) n).map trp) := by
          rw [hrange, segSpecAux_cons, if_pos hc]
        have hhead : ({ f with p1 := f.p0, p0 := trp i } : Fragment)
            = { f with p0 := trp i, p1 := prev } := by rw [← hp]
        refine ⟨fE, ?_, ?_⟩
        · rw [loopN_succ, hstep, hE, segSpecAux_congr hbump, hspec,
            List.append_assoc, List.singleton_append, hhead]
        · rw [hcore, segSpecAux_congr hbump, hspec]
          simp only [Fragment.segCore, Fragment.addIndex, Fragment.bumpIndex,
            List.length_cons, Prod.mk.injEq, and_true, true_and]
          omega
      · have hcond : ¬ (0 < i ∧ ((({ f with p1 := f.p0, p0 := trp i } : Fragment).p0.add
              ({ f with p1 := f.p0, p0 := trp i } : Fragment).p1).isfinite = true)) := by
          intro hand
          apply hc
          have h2 := hand.2
          rw [show (({ f with p1 := f.p0, p0 := trp i } : Fragment).p0.add
            ({ f with p1 := f.p0, p0 := trp i } : Fragment).p1) = (trp i).add f.p0 from rfl,
            hp, vec3Add_isfinite] at h2
          exact h2
        have hstep : segStep trp i (f, v)
            = (({ f with p1 := f.p0, p0 := trp i } : Fragment), v) := by
          simp only [segStep]
          rw [if_neg hcond]
        obtain ⟨fE, hE, hcore⟩ := ih (i + 1)
          ({ f with p1 := f.p0, p0 := trp i } : Fragment) v (trp i) rfl (Nat.succ_pos i)
        have hspec : segSpecAux f prev ((List.range' i (n + 1)).map trp)
            = segSpecAux f (trp i) ((List.range' (i + 1) n).map trp) := by
          rw [hrange, segSpecAux_cons, if_neg hc]
        refine ⟨fE, ?_, ?_⟩
        · rw [loopN_succ, hstep, hE, segSpecAux_congr hgcore, hspec]
        · rw [hcore, segSpecAux_congr hgcore, hspec]
          exact Fragment.segCore_addIndex_congr hgcore _

theorem segSpec_congr {f g : Fragment} (h : f.segCore = g.segCore)
    (l : List Vec3) : segSpec f l = segSpec g l := by
  cases l with
  | nil => rfl
  | cons p rest => exact segSpecAux_congr h p rest

/-- The whole segment loop, from index 0: it appends exactly the
consecutive-finite-pair fragments of the transformed point list. -/
theorem segLoop_full (trp : Nat → Vec3) (k : Nat) (f : Fragment) (v : List Fragment) :
    ∃ fE : Fragment,
      loopN (segStep trp) 0 k (f, v)
        = (fE, v ++ segSpec f ((List.range k).map trp))
      ∧ fE.segCore = (f.addIndex (segSpec f ((List.range k).map trp)).length).segCore := by
  cases k with
  | zero =>
      refine ⟨f, ?_, ?_⟩
      · rw [loopN_zero]
        rw [show (List.range 0).map trp = [] from rfl, show segSpec f [] = [] from rfl,
          List.append_nil]
      · rw [show (List.range 0).map trp = [] from rfl, show segSpec f [] = [] from rfl]
        simp [Fragment.addIndex, Fragment.segCore]
  | succ n =>
      have hcond : ¬ (0 < 0 ∧ ((({ f with p1 := f.p0, p0 := trp 0 } : Fragment).p0.add
            ({ f with p1 := f.p0, p0 := trp 0 } : Fragment).p1).isfinite = true)) := by
        intro hand
        exact Nat.lt_irrefl 0 hand.1
      have hstep : segStep trp 0 (f, v)
          = (({ f with p1 := f.p0, p0 := trp 0 } : Fragment), v) := by
        simp only [segStep]
        rw [if_neg hcond]
      have hgcore : ({ f with p1 := f.p0, p0 := trp 0 } : Fragment).segCore = f.segCore := rfl
      obtain ⟨fE, hE, hcore⟩ := segLoop_aux trp n 1
        ({ f with p1 := f.p0, p0 := trp 0 } : Fragment) v (trp 0) rfl Nat.one_pos
      have hrange : (List.range (n + 1)).map trp = trp 0 :: (List.range' 1 n).map trp := by
        rw [List.range_eq_range', List.range'_succ, List.map_cons]
      have hspec : segSpec f ((List.range (n + 1)).map trp)
          = segSpecAux f (trp 0) ((List.range' 1 n).map trp) := by
        rw [hrange]; rfl
      refine ⟨fE, ?_, ?_⟩
      · rw [loopN_succ, hstep, hE, segSpecAux_congr hgcore, hspec]
      · rw [hcore, segSpecAux_congr hgcore, hspec]
        exact Fragment.segCore_addIndex_congr hgcore _

/-- PolyLine::getFragments appends exactly the consecutive-finite-pair
segments of the stored points transformed by outerM. -/
theorem polyLine_refine (pl : PolyLine) (outerM : Mat4) (v : List Fragment) :
    pl.getFragments outerM v
      = v ++ segSpec (lineProto pl.lineprop)
          (pl.points.map (fun p => vec4to3 (outerM.apply p))) := by
  obtain ⟨fE, hE, -⟩ := segLoop_full
    (fun i => vec4to3 (outerM.apply (pl.points.getD i v4def))) pl.points.length
    (lineProto pl.lineprop) v
  have hpts : (List.range pl.points.length).map
      (fun i => vec4to3 (outerM.apply (pl.points.getD i v4def)))
      = pl.points.map (fun p => vec4to3 (outerM.apply p)) :=
    range_getD_map pl.points (fun p => vec4to3 (outerM.apply p)) v4def
  rw [PolyLine.getFragments, hE, hpts]

-- ---------------------------------------------------------------------------
-- Mesh wireframe: the two passes versus the grid-line walk of the spec
-- ---------------------------------------------------------------------------

theorem Vec4.set_c3 (q : Vec4) (i : Nat) (a : Dbl) (h : i < 3) :
    (q.set i a).c3 = q.c3 := by
  match i, h with
  | 0, _ => rfl
  | 1, _ => rfl
  | 2, _ => rfl

theorem Vec4.get_set_self (q : Vec4) (i : Nat) (a : Dbl) (h : i < 3) :
    (q.set i a).get i = a := by
  match i, h with
  | 0, _ => rfl
  | 1, _ => rfl
  | 2, _ => rfl

theorem Fragment.addIndex_addIndex (f : Fragment) (a b : Nat) :
    (f.addIndex a).addIndex b = f.addIndex (a + b) := by
  simp [Fragment.addIndex, Nat.add_assoc]

theorem linesSpec_nil (outerM : Mat4) (fl : Fragment) : linesSpec outerM fl [] = [] := rfl

theorem linesSpec_cons (outerM : Mat4) (fl : Fragment) (ln : List Vec4)
    (rest : List (List Vec4)) :
    linesSpec outerM fl (ln :: rest)
      = segSpec fl (ln.map (fun p => vec4to3 (outerM.apply p)))
        ++ linesSpec outerM
          (fl.addIndex (segSpec fl (ln.map (fun p => vec4to3 (outerM.apply p)))).length)
          rest := rfl

theorem linesSpec_congr {f g : Fragment} (h : f.segCore = g.segCore)
    (outerM : Mat4) (ls : List (List Vec4)) :
    linesSpec outerM f ls = linesSpec outerM g ls := by
  induction ls generalizing f g with
  | nil => rfl
  | cons ln rest ih =>
      rw [linesSpec_cons, linesSpec_cons, segSpec_congr h]
      rw [ih (Fragment.segCore_addIndex_congr h _)]

theorem linesSpec_append (outerM : Mat4) (f : Fragment) (l1 l2 : List (List Vec4)) :
    linesSpec outerM f (l1 ++ l2)
      = linesSpec outerM f l1
        ++ linesSpec outerM (f.addIndex (linesSpec outerM f l1).length) l2 := by
  induction l1 generalizing f with
  | nil =>
      rw [List.nil_append, linesSpec_nil, List.nil_append]
      have : f.addIndex 0 = f := by simp [Fragment.addIndex]
      rw [show ([] : List Fragment).length = 0 from rfl, this]
  | cons ln rest ih =>
      rw [List.cons_append, linesSpec_cons, linesSpec_cons, ih,
        List.append_assoc, Fragment.addIndex_addIndex, List.length_append]

/-- The inner stepi loop of Mesh::getLineFragments is the generic segment
loop once the walked grid point is known: under an invariant on the shared
pt (its w component and the constant coordinate), the point built at step j
is mk j, independent of the incoming pt. -/
theorem meshLine_to_seg (outerM : Mat4) (m : Mesh) (stepindex consti vs vh : Nat)
    (vec_step : List Dbl) (mk : Nat → Vec4) (Inv : Vec4 → Prop)
    (hupd : ∀ j q, Inv q → (q.set vs (vec_step.getD j (Dbl.fin 0))).set vh
      (m.heights.getD (if stepindex = 0 then j * m.pos2.length + consti
        else consti * m.pos2.length + j) (Dbl.fin 0)) = mk j)
    (hmk : ∀ j, Inv (mk j)) :
    ∀ (n i : Nat) (pt : Vec4) (s : Fragment × List Fragment), Inv pt →
      ∃ ptE, loopN (meshLineStep outerM m stepindex consti vs vh vec_step) i n (pt, s)
        = (ptE, loopN (segStep (fun t => vec4to3 (outerM.apply (mk t)))) i n s)
        ∧ Inv ptE := by
  intro n
  induction n with
  | zero => intro i pt s hpt; exact ⟨pt, rfl, hpt⟩
  | succ n ih =>
      intro i pt s hpt
      rw [loopN_succ, loopN_succ]
      have hbody : meshLineStep outerM m stepindex consti vs vh vec_step i (pt, s)
          = (mk i, segStep (fun t => vec4to3 (outerM.apply (mk t))) i s) := by
        simp only [meshLineStep, segStep, hupd i pt hpt]
        split <;> rfl
      rw [hbody]
      exact ih (i + 1) (mk i) _ (hmk i)

/-- The consti loop of one Mesh::getLineFragments pass appends exactly the
spec's per-line consecutive-finite-pair fragments for the walked lines,
carrying one sequence index across the lines. -/
theorem meshConst_eq (outerM : Mat4) (m : Mesh) (stepindex vs vh vc : Nat)
    (vec_step vec_const : List Dbl) (mk : Nat → Nat → Vec4)
    (hvc : vc < 3)
    (hupd : ∀ (c j : Nat) (q : Vec4), q.c3 = Dbl.fin 1 → q.get vc = vec_const.getD c (Dbl.fin 0) →
      (q.set vs (vec_step.getD j (Dbl.fin 0))).set vh
        (m.heights.getD (if stepindex = 0 then j * m.pos2.length + c
          else c * m.pos2.length + j) (Dbl.fin 0)) = mk c j)
    (hmk3 : ∀ c j, (mk c j).c3 = Dbl.fin 1)
    (hmkc : ∀ c j, (mk c j).get vc = vec_const.getD c (Dbl.fin 0)) :
    ∀ (n c : Nat) (pt : Vec4) (f : Fragment) (v : List Fragment), pt.c3 = Dbl.fin 1 →
      ∃ ptE fE,
        loopN (meshConstStep outerM m stepindex vs vh vc vec_step vec_const) c n (pt, f, v)
          = (ptE, fE, v ++ linesSpec outerM f ((List.range' c n).map
              (fun ci => (List.range vec_step.length).map (fun j => mk ci j))))
        ∧ ptE.c3 = Dbl.fin 1
        ∧ fE.segCore = (f.addIndex (linesSpec outerM f ((List.range' c n).map
            (fun ci => (List.range vec_step.length).map (fun j => mk ci j)))).length).segCore := by
  intro n
  induction n with
  | zero =>
      intro c pt f v hpt
      refine ⟨pt, f, ?_, hpt, ?_⟩
      · rw [loopN_zero]
        rw [show (List.range' c 0).map
            (fun ci => (List.range vec_step.length).map (fun j => mk ci j)) = [] from rfl,
          linesSpec_nil, List.append_nil]
      · rw [show (List.range' c 0).map
            (fun ci => (List.range vec_step.length).map (fun j => mk ci j)) = [] from rfl,
          linesSpec_nil]
        simp [Fragment.addIndex, Fragment.segCore]
  | succ n ih =>
      intro c pt f v hpt
      rw [loopN_succ]
      -- the middle body: set the constant coordinate, then the inner loop
      have hmid : meshConstStep outerM m stepindex vs vh vc vec_step vec_const c (pt, f, v)
          = loopN (meshLineStep outerM m stepindex c vs vh vec_step) 0 vec_step.length
              (pt.set vc (vec_const.getD c (Dbl.fin 0)), f, v) := rfl
      obtain ⟨ptE1, hinner, hInv1⟩ := meshLine_to_seg outerM m stepindex c vs vh vec_step
        (mk c)
        (fun q => q.c3 = Dbl.fin 1 ∧ q.get vc = vec_const.getD c (Dbl.fin 0))
        (fun j q hq => hupd c j q hq.1 hq.2)
        (fun j => ⟨hmk3 c j, hmkc c j⟩)
        vec_step.length 0 (pt.set vc (vec_const.getD c (Dbl.fin 0))) (f, v)
        ⟨by rw [Vec4.set_c3 pt vc _ hvc, hpt], Vec4.get_set_self pt vc _ hvc⟩
      obtain ⟨fE1, hseg, hcore1⟩ := segLoop_full
        (fun t => vec4to3 (outerM.apply (mk c t))) vec_step.length f v
      have hmapmap : (List.range vec_step.length).map (fun t => vec4to3 (outerM.apply (mk c t)))
          = ((List.range vec_step.length).map (fun j => mk c j)).map
              (fun p => vec4to3 (outerM.apply p)) := by
        rw [List.map_map]
        rfl
      obtain ⟨ptE, fE, hrest, hptE, hcoreE⟩ := ih (c + 1) ptE1 fE1
        (v ++ segSpec f ((List.range vec_step.length).map (fun t => vec4to3 (outerM.apply (mk c t)))))
        hInv1.1
      have hlines : (List.range' c (n + 1)).map
          (fun ci => (List.range vec_step.length).map (fun j => mk ci j))
          = ((List.range vec_step.length).map (fun j => mk c j))
            :: (List.range' (c + 1) n).map
              (fun ci => (List.range vec_step.length).map (fun j => mk ci j)) := by
        rw [List.range'_succ, List.map_cons]
      have hw1 : segSpec f ((List.range vec_step.length).map (fun t => vec4to3 (outerM.apply (mk c t))))
          = segSpec f
            (((List.range vec_step.length).map (fun j => mk c j)).map
              (fun p => vec4to3 (outerM.apply p))) := by rw [hmapmap]
      have hlcongr : linesSpec outerM fE1 ((List.range' (c + 1) n).map
            (fun ci => (List.range vec_step.length).map (fun j => mk ci j)))
          = linesSpec outerM
            (f.addIndex (segSpec f
              (((List.range vec_step.length).map (fun j => mk c j)).map
                (fun p => vec4to3 (outerM.apply p)))).length)
            ((List.range' (c + 1) n).map
              (fun ci => (List.range vec_step.length).map (fun j => mk ci j))) := by
        apply linesSpec_congr
        rw [hcore1, hw1]
      refine ⟨ptE, fE, ?_, hptE, ?_⟩
      · rw [hmid, hinner, hseg, hrest, hlcongr, hlines, linesSpec_cons, hw1,
          List.append_assoc]
      · rw [hcoreE, hlcongr, hlines, linesSpec_cons, List.length_append,
          ← Fragment.addIndex_addIndex]
        exact Fragment.segCore_addIndex_congr (by rw [hcore1, hw1]) _

theorem linePass_zero (m : Mesh) (outerM : Mat4) (st : Vec4 × Fragment × List Fragment) :
    m.linePass outerM 0 st
      = loopN (meshConstStep outerM m 0 m.getVecIdxs.2.1 m.getVecIdxs.1 m.getVecIdxs.2.2
          m.pos1 m.pos2) 0 m.pos2.length st := by
  simp [Mesh.linePass]

theorem linePass_one (m : Mesh) (outerM : Mat4) (st : Vec4 × Fragment × List Fragment) :
    m.linePass outerM 1 st
      = loopN (meshConstStep outerM m 1 m.getVecIdxs.2.2 m.getVecIdxs.1 m.getVecIdxs.2.1
          m.pos2 m.pos1) 0 m.pos1.length st := by
  simp [Mesh.linePass]

/-- Direction-generic core of the wireframe refinement: given the
direction's axis triple and the grid-point update facts, the two passes of
Mesh::getLineFragments append exactly the spec's per-line fragments. -/
theorem meshLine_refine_core (m : Mesh) (outerM : Mat4) (lp : Nat) (v : List Fragment)
    (hlp : m.lineprop = some lp) (vh v1 v2 : Nat)
    (hv : m.getVecIdxs = (vh, v1, v2))
    (hv1lt : v1 < 3) (hv2lt : v2 < 3)
    (hupd0 : ∀ (c j : Nat) (q : Vec4), q.c3 = Dbl.fin 1 →
      q.get v2 = m.pos2.getD c (Dbl.fin 0) →
      (q.set v1 (m.pos1.getD j (Dbl.fin 0))).set vh
        (m.heights.getD (if 0 = 0 then j * m.pos2.length + c
          else c * m.pos2.length + j) (Dbl.fin 0))
        = m.gridPoint j c)
    (hupd1 : ∀ (c j : Nat) (q : Vec4), q.c3 = Dbl.fin 1 →
      q.get v1 = m.pos1.getD c (Dbl.fin 0) →
      (q.set v2 (m.pos2.getD j (Dbl.fin 0))).set vh
        (m.heights.getD (if 1 = 0 then j * m.pos2.length + c
          else c * m.pos2.length + j) (Dbl.fin 0))
        = m.gridPoint c j)
    (hg3 : ∀ i1 i2, (m.gridPoint i1 i2).c3 = Dbl.fin 1)
    (hgv1 : ∀ i1 i2, (m.gridPoint i1 i2).get v1 = m.pos1.getD i1 (Dbl.fin 0))
    (hgv2 : ∀ i1 i2, (m.gridPoint i1 i2).get v2 = m.pos2.getD i2 (Dbl.fin 0)) :
    m.getLineFragments outerM v
      = v ++ linesSpec outerM (lineProto (some lp)) m.lines := by
  have hEq : m.getLineFragments outerM v
      = (m.linePass outerM 1 (m.linePass outerM 0
          (⟨Dbl.fin 0, Dbl.fin 0, Dbl.fin 0, Dbl.fin 1⟩, lineProto (some lp), v))).2.2 := by
    simp only [Mesh.getLineFragments, hlp]
    rfl
  obtain ⟨ptE1, fE1, h0, hpt1, hc0⟩ := meshConst_eq outerM m 0 v1 vh v2 m.pos1 m.pos2
    (fun c j => m.gridPoint j c) hv2lt hupd0 (fun c j => hg3 j c) (fun c j => hgv2 j c)
    m.pos2.length 0 ⟨Dbl.fin 0, Dbl.fin 0, Dbl.fin 0, Dbl.fin 1⟩ (lineProto (some lp)) v rfl
  have hrange0 : (List.range' 0 m.pos2.length).map
      (fun ci => (List.range m.pos1.length).map (fun j => m.gridPoint j ci))
      = (List.range m.pos2.length).map
        (fun ci => (List.range m.pos1.length).map (fun j => m.gridPoint j ci)) := by
    rw [← List.range_eq_range']
  rw [hrange0] at h0 hc0
  obtain ⟨ptE2, fE2, h1, hpt2, hc1⟩ := meshConst_eq outerM m 1 v2 vh v1 m.pos2 m.pos1
    (fun c j => m.gridPoint c j) hv1lt hupd1 (fun c j => hg3 c j) (fun c j => hgv1 c j)
    m.pos1.length 0 ptE1 fE1
    (v ++ linesSpec outerM (lineProto (some lp))
      ((List.range m.pos2.length).map
        (fun ci => (List.range m.pos1.length).map (fun j => m.gridPoint j ci)))) hpt1
  have hrange1 : (List.range' 0 m.pos1.length).map
      (fun ci => (List.range m.pos2.length).map (fun j => m.gridPoint ci j))
      = (List.range m.pos1.length).map
        (fun ci => (List.range m.pos2.length).map (fun j => m.gridPoint ci j)) := by
    rw [← List.range_eq_range']
  rw [hrange1] at h1 hc1
  rw [hEq, linePass_zero, linePass_one, hv]
  rw [show ((vh, v1, v2) : Nat × Nat × Nat).2.1 = v1 from rfl,
    show ((vh, v1, v2) : Nat × Nat × Nat).2.2 = v2 from rfl,
    show ((vh, v1, v2) : Nat × Nat × Nat).1 = vh from rfl]
  rw [h0, h1]
  show (v ++ _) ++ _ = _
  have hsplit : m.lines
      = ((List.range m.pos2.length).map
          (fun ci => (List.range m.pos1.length).map (fun j => m.gridPoint j ci)))
        ++ ((List.range m.pos1.length).map
          (fun ci => (List.range m.pos2.length).map (fun j => m.gridPoint ci j))) := rfl
  rw [hsplit, linesSpec_append, linesSpec_congr hc0, List.append_assoc]

/-- Mesh::getLineFragments appends nothing without a line style, and
otherwise exactly the spec's grid-line walk: both passes of lines built
from gridPoint, each line contributing its consecutive finite pairs. -/
theorem meshLine_refine (m : Mesh) (outerM : Mat4) (v : List Fragment) :
    m.getLineFragments outerM v
      = v ++ (match m.lineprop with
          | none => []
          | some lp => linesSpec outerM (lineProto (some lp)) m.lines) := by
  cases hlp : m.lineprop with
  | none =>
      rw [Mesh.getLineFragments, hlp]
      simp
  | some lp =>
      cases hd : m.dirn with
      | X_DIRN =>
          have hv : m.getVecIdxs = (0, 1, 2) := by simp [Mesh.getVecIdxs, hd]
          rw [meshLine_refine_core m outerM lp v hlp 0 1 2 hv (by omega) (by omega)
            ?_ ?_ ?_ ?_ ?_]
          · intro c j q h3 hc
            obtain ⟨q0, q1, q2, q3⟩ := q
            simp only [Vec4.get] at hc
            simp only [Mesh.gridPoint, hv, Vec4.set, v4def]
            simp_all
          · intro c j q h3 hc
            obtain ⟨q0, q1, q2, q3⟩ := q
            simp only [Vec4.get] at hc
            simp only [Mesh.gridPoint, hv, Vec4.set, v4def]
            simp_all
          · intro i1 i2
            simp [Mesh.gridPoint, hv, Vec4.set, v4def]
          · intro i1 i2
            simp [Mesh.gridPoint, hv, Vec4.set, v4def, Vec4.get]
          · intro i1 i2
            simp [Mesh.gridPoint, hv, Vec4.set, v4def, Vec4.get]
      | Y_DIRN =>
          have hv : m.getVecIdxs = (1, 2, 0) := by simp [Mesh.getVecIdxs, hd]
          rw [meshLine_refine_core m outerM lp v hlp 1 2 0 hv (by omega) (by omega)
            ?_ ?_ ?_ ?_ ?_]
          · intro c j q h3 hc
            obtain ⟨q0, q1, q2, q3⟩ := q
            simp only [Vec4.get] at hc
            simp only [Mesh.gridPoint, hv, Vec4.set, v4def]
            simp_all
          · intro c j q h3 hc
            obtain ⟨q0, q1, q2, q3⟩ := q
            simp only [Vec4.get] at hc
            simp only [Mesh.gridPoint, hv, Vec4.set, v4def]
            simp_all
          · intro i1 i2
            simp [Mesh.gridPoint, hv, Vec4.set, v4def]
          · intro i1 i2
            simp [Mesh.gridPoint, hv, Vec4.set, v4def, Vec4.get]
          · intro i1 i2
            simp [Mesh.gridPoint, hv, Vec4.set, v4def, Vec4.get]
      | Z_DIRN =>
          have hv : m.getVecIdxs = (2, 0, 1) := by simp [Mesh.getVecIdxs, hd]
          rw [meshLine_refine_core m outerM lp v hlp 2 0 1 hv (by omega) (by omega)
            ?_ ?_ ?_ ?_ ?_]
          · intro c j q h3 hc
            obtain ⟨q0, q1, q2, q3⟩ := q
            simp only [Vec4.get] at hc
            simp only [Mesh.gridPoint, hv, Vec4.set, v4def]
            simp_all
          · intro c j q h3 hc
            obtain ⟨q0, q1, q2, q3⟩ := q
            simp only [Vec4.get] at hc
            simp only [Mesh.gridPoint, hv, Vec4.set, v4def]
            simp_all
          · intro i1 i2
            simp [Mesh.gridPoint, hv, Vec4.set, v4def]
          · intro i1 i2
            simp [Mesh.gridPoint, hv, Vec4.set, v4def, Vec4.get]
          · intro i1 i2
            simp [Mesh.gridPoint, hv, Vec4.set, v4def, Vec4.get]

theorem Fragment.surfCore_addIndex_congr {f g : Fragment}
    (h : f.surfCore = g.surfCore) (n : Nat) :
    (f.addIndex n).surfCore = (g.addIndex n).surfCore := by
  cases f; cases g
  simp only [Fragment.surfCore, Prod.mk.injEq, Fragment.addIndex] at h ⊢
  simp_all

theorem cellFrags_congr {f g : Fragment} (h : f.surfCore = g.surfCore)
    (outerM : Mat4) (c00 c10 c01 c11 : Vec4) :
    cellFrags outerM f c00 c10 c01 c11 = cellFrags outerM g c00 c10 c01 c11 := by
  cases f; cases g
  simp only [Fragment.surfCore, Prod.mk.injEq] at h
  simp only [cellFrags]
  simp_all

theorem surfFold_nil (outerM : Mat4) (fs : Fragment) : surfFold outerM fs [] = [] := rfl

theorem surfFold_cons (outerM : Mat4) (fs : Fragment) (c : Vec4 × Vec4 × Vec4 × Vec4)
    (rest : List (Vec4 × Vec4 × Vec4 × Vec4)) :
    surfFold outerM fs (c :: rest)
      = cellFrags outerM fs c.1 c.2.1 c.2.2.1 c.2.2.2
        ++ surfFold outerM
          (fs.addIndex (cellFrags outerM fs c.1 c.2.1 c.2.2.1 c.2.2.2).length) rest := rfl

theorem surfFold_congr {f g : Fragment} (h : f.surfCore = g.surfCore)
    (outerM : Mat4) (cs : List (Vec4 × Vec4 × Vec4 × Vec4)) :
    surfFold outerM f cs = surfFold outerM g cs := by
  induction cs generalizing f g with
  | nil => rfl
  | cons c rest ih =>
      rw [surfFold_cons, surfFold_cons, cellFrags_congr h]
      rw [ih (Fragment.surfCore_addIndex_congr h _)]

theorem surfFold_append (outerM : Mat4) (f : Fragment)
    (l1 l2 : List (Vec4 × Vec4 × Vec4 × Vec4)) :
    surfFold outerM f (l1 ++ l2)
      = surfFold outerM f l1
        ++ surfFold outerM (f.addIndex (surfFold outerM f l1).length) l2 := by
  induction l1 generalizing f with
  | nil =>
      rw [List.nil_append, surfFold_nil, List.nil_append]
      have h0 : f.addIndex 0 = f := by simp [Fragment.addIndex]
      rw [show ([] : List Fragment).length = 0 from rfl, h0]
  | cons c rest ih =>
      rw [List.cons_append, surfFold_cons, surfFold_cons, ih,
        List.append_assoc, Fragment.addIndex_addIndex, List.length_append]

/-- One iteration of the surface i2 loop appends exactly the cell's
fragments (two triangles if all corners are finite, none otherwise). -/
theorem meshSurfStep_eq (outerM : Mat4) (m : Mesh) (vh v1 v2 : Nat)
    (hv : m.getVecIdxs = (vh, v1, v2))
    (hcorner : ∀ (hval aval bval : Dbl),
      ((v4def.set vh hval).set v1 aval).set v2 bval
        = ((v4def.set v1 aval).set v2 bval).set vh hval)
    (i1 i2 : Nat) (f : Fragment) (v : List Fragment) :
    ∃ f1 : Fragment,
      meshSurfStep outerM m i1 i2 (f, v)
        = (f1, v ++ cellFrags outerM f (m.gridPoint i1 i2) (m.gridPoint (i1 + 1) i2)
            (m.gridPoint i1 (i2 + 1)) (m.gridPoint (i1 + 1) (i2 + 1)))
      ∧ f1.surfCore = (f.addIndex (cellFrags outerM f (m.gridPoint i1 i2)
          (m.gridPoint (i1 + 1) i2) (m.gridPoint i1 (i2 + 1))
          (m.gridPoint (i1 + 1) (i2 + 1))).length).surfCore := by
  have hgp : ∀ a b : Nat, m.gridPoint a b
      = ((v4def.set vh (m.heights.getD (a * m.pos2.length + b) (Dbl.fin 0))).set
          v1 (m.pos1.getD a (Dbl.fin 0))).set v2 (m.pos2.getD b (Dbl.fin 0)) := by
    intro a b
    rw [hcorner]
    simp only [Mesh.gridPoint, hv]
  have hfin : (((((m.gridPoint i1 i2).add (m.gridPoint (i1 + 1) i2)).add
        (m.gridPoint i1 (i2 + 1))).add (m.gridPoint (i1 + 1) (i2 + 1))).isfinite)
      = ((m.gridPoint i1 i2).isfinite && (m.gridPoint (i1 + 1) i2).isfinite
          && (m.gridPoint i1 (i2 + 1)).isfinite && (m.gridPoint (i1 + 1) (i2 + 1)).isfinite) := by
    rw [vec4Add_isfinite, vec4Add_isfinite, vec4Add_isfinite]
  have hunf : meshSurfStep outerM m i1 i2 (f, v)
      = (if ((((m.gridPoint i1 i2).add (m.gridPoint (i1 + 1) i2)).add
            (m.gridPoint i1 (i2 + 1))).add (m.gridPoint (i1 + 1) (i2 + 1))).isfinite then
          (let fA : Fragment := { f with
            p1 := vec4to3 (outerM.apply (m.gridPoint (i1 + 1) i2))
            p2 := vec4to3 (outerM.apply (m.gridPoint i1 (i2 + 1)))
            p0 := vec4to3 (outerM.apply (m.gridPoint i1 i2)) }
           let fB : Fragment := { fA.bumpIndex with
            p0 := vec4to3 (outerM.apply (m.gridPoint (i1 + 1) (i2 + 1))) }
           (fB.bumpIndex, v ++ [fA, fB]))
        else (f, v)) := by
    simp only [meshSurfStep, hv]
    rw [← hgp i1 i2, ← hgp (i1 + 1) i2, ← hgp i1 (i2 + 1), ← hgp (i1 + 1) (i2 + 1)]
  by_cases hc : ((m.gridPoint i1 i2).isfinite && (m.gridPoint (i1 + 1) i2).isfinite
      && (m.gridPoint i1 (i2 + 1)).isfinite && (m.gridPoint (i1 + 1) (i2 + 1)).isfinite) = true
  · have hcell : cellFrags outerM f (m.gridPoint i1 i2) (m.gridPoint (i1 + 1) i2)
        (m.gridPoint i1 (i2 + 1)) (m.gridPoint (i1 + 1) (i2 + 1))
        = [{ f with
              p0 := vec4to3 (outerM.apply (m.gridPoint i1 i2))
              p1 := vec4to3 (outerM.apply (m.gridPoint (i1 + 1) i2))
              p2 := vec4to3 (outerM.apply (m.gridPoint i1 (i2 + 1))) },
           { f with
              p0 := vec4to3 (outerM.apply (m.gridPoint (i1 + 1) (i2 + 1)))
              p1 := vec4to3 (outerM.apply (m.gridPoint (i1 + 1) i2))
              p2 := vec4to3 (outerM.apply (m.gridPoint i1 (i2 + 1)))
              index := f.index + 1 }] := by
      rw [cellFrags, if_pos hc]
    refine ⟨({ ({ f with
          p1 := vec4to3 (outerM.apply (m.gridPoint (i1 + 1) i2))
          p2 := vec4to3 (outerM.apply (m.gridPoint i1 (i2 + 1)))
          p0 := vec4to3 (outerM.apply (m.gridPoint i1 i2)) } : Fragment).bumpIndex with
        p0 := vec4to3 (outerM.apply (m.gridPoint (i1 + 1) (i2 + 1))) } : Fragment).bumpIndex,
      ?_, ?_⟩
    · rw [hunf, if_pos (by rw [hfin]; exact hc), hcell]
      rfl
    · rw [hcell]
      simp [Fragment.surfCore, Fragment.addIndex, Fragment.bumpIndex]
  · have hcell : cellFrags outerM f (m.gridPoint i1 i2) (m.gridPoint (i1 + 1) i2)
        (m.gridPoint i1 (i2 + 1)) (m.gridPoint (i1 + 1) (i2 + 1)) = [] := by
      rw [cellFrags, if_neg hc]
    refine ⟨f, ?_, ?_⟩
    · rw [hunf, if_neg (by rw [hfin]; exact hc), hcell, List.append_nil]
    · rw [hcell]
      simp [Fragment.surfCore, Fragment.addIndex]

/-- The i2 loop of Mesh::getSurfaceFragments appends exactly the spec's
cell fragments for the cells of row i1, in order. -/
theorem meshSurf_inner (outerM : Mat4) (m : Mesh) (vh v1 v2 : Nat)
    (hv : m.getVecIdxs = (vh, v1, v2))
    (hcorner : ∀ (hval aval bval : Dbl),
      ((v4def.set vh hval).set v1 aval).set v2 bval
        = ((v4def.set v1 aval).set v2 bval).set vh hval)
    (i1 : Nat) :
    ∀ (n i2 : Nat) (f : Fragment) (v : List Fragment),
      ∃ fE : Fragment,
        loopN (meshSurfStep outerM m i1) i2 n (f, v)
          = (fE, v ++ surfFold outerM f ((List.range' i2 n).map
              (fun c => (m.gridPoint i1 c, m.gridPoint (i1 + 1) c,
                m.gridPoint i1 (c + 1), m.gridPoint (i1 + 1) (c + 1)))))
        ∧ fE.surfCore = (f.addIndex (surfFold outerM f ((List.range' i2 n).map
            (fun c => (m.gridPoint i1 c, m.gridPoint (i1 + 1) c,
              m.gridPoint i1 (c + 1), m.gridPoint (i1 + 1) (c + 1))))).length).surfCore := by
  intro n
  induction n with
  | zero =>
      intro i2 f v
      refine ⟨f, ?_, ?_⟩
      · rw [loopN_zero, show (List.range' i2 0).map
            (fun c => (m.gridPoint i1 c, m.gridPoint (i1 + 1) c,
              m.gridPoint i1 (c + 1), m.gridPoint (i1 + 1) (c + 1))) = [] from rfl,
          surfFold_nil, List.append_nil]
      · rw [show (List.range' i2 0).map
            (fun c => (m.gridPoint i1 c, m.gridPoint (i1 + 1) c,
              m.gridPoint i1 (c + 1), m.gridPoint (i1 + 1) (c + 1))) = [] from rfl,
          surfFold_nil]
        simp [Fragment.addIndex, Fragment.surfCore]
  | succ n ih =>
      intro i2 f v
      rw [loopN_succ]
      obtain ⟨f1, hstep, hcore1⟩ := meshSurfStep_eq outerM m vh v1 v2 hv hcorner i1 i2 f v
      obtain ⟨fE, hrest, hcoreE⟩ := ih (i2 + 1) f1
        (v ++ cellFrags outerM f (m.gridPoint i1 i2) (m.gridPoint (i1 + 1) i2)
          (m.gridPoint i1 (i2 + 1)) (m.gridPoint (i1 + 1) (i2 + 1)))
      have hmap : (List.range' i2 (n + 1)).map
          (fun c => (m.gridPoint i1 c, m.gridPoint (i1 + 1) c,
            m.gridPoint i1 (c + 1), m.gridPoint (i1 + 1) (c + 1)))
          = (m.gridPoint i1 i2, m.gridPoint (i1 + 1) i2,
              m.gridPoint i1 (i2 + 1), m.gridPoint (i1 + 1) (i2 + 1))
            :: (List.range' (i2 + 1) n).map
              (fun c => (m.gridPoint i1 c, m.gridPoint (i1 + 1) c,
                m.gridPoint i1 (c + 1), m.gridPoint (i1 + 1) (c + 1))) := by
        rw [List.range'_succ, List.map_cons]
      have hfold : surfFold outerM f1 ((List.range' (i2 + 1) n).map
            (fun c => (m.gridPoint i1 c, m.gridPoint (i1 + 1) c,
              m.gridPoint i1 (c + 1), m.gridPoint (i1 + 1) (c + 1))))
          = surfFold outerM (f.addIndex (cellFrags outerM f (m.gridPoint i1 i2)
              (m.gridPoint (i1 + 1) i2) (m.gridPoint i1 (i2 + 1))
              (m.gridPoint (i1 + 1) (i2 + 1))).length)
            ((List.range' (i2 + 1) n).map
              (fun c => (m.gridPoint i1 c, m.gridPoint (i1 + 1) c,
                m.gridPoint i1 (c + 1), m.gridPoint (i1 + 1) (c + 1)))) :=
        surfFold_congr hcore1 outerM _
      refine ⟨fE, ?_, ?_⟩
      · rw [hstep, hrest, hfold, hmap, surfFold_cons, List.append_assoc]
      · rw [hcoreE, hfold, hmap, surfFold_cons, List.length_append,
          ← Fragment.addIndex_addIndex]
        exact Fragment.surfCore_addIndex_congr hcore1 _

/-- The i1 loop of Mesh::getSurfaceFragments appends exactly the spec's
cell fragments of the rows i1, i1+1, ..., in row-major order. -/
theorem meshSurf_outer (outerM : Mat4) (m : Mesh) (vh v1 v2 : Nat)
    (hv : m.getVecIdxs = (vh, v1, v2))
    (hcorner : ∀ (hval aval bval : Dbl),
      ((v4def.set vh hval).set v1 aval).set v2 bval
        = ((v4def.set v1 aval).set v2 bval).set vh hval) :
    ∀ (n i1 : Nat) (f : Fragment) (v : List Fragment),
      ∃ fE : Fragment,
        loopN (fun i1 st => loopN (meshSurfStep outerM m i1) 0 (m.pos2.length - 1) st)
            i1 n (f, v)
          = (fE, v ++ surfFold outerM f ((List.range' i1 n).flatMap
              (fun a => (List.range (m.pos2.length - 1)).map
                (fun c => (m.gridPoint a c, m.gridPoint (a + 1) c,
                  m.gridPoint a (c + 1), m.gridPoint (a + 1) (c + 1)))))) := by
  intro n
  induction n with
  | zero =>
      intro i1 f v
      refine ⟨f, ?_⟩
      rw [loopN_zero, show (List.range' i1 0).flatMap
          (fun a => (List.range (m.pos2.length - 1)).map
            (fun c => (m.gridPoint a c, m.gridPoint (a + 1) c,
              m.gridPoint a (c + 1), m.gridPoint (a + 1) (c + 1)))) = [] from rfl,
        surfFold_nil, List.append_nil]
  | succ n ih =>
      intro i1 f v
      rw [loopN_succ]
      obtain ⟨f1, hrow, hcore1⟩ := meshSurf_inner outerM m vh v1 v2 hv hcorner i1
        (m.pos2.length - 1) 0 f v
      have hr0 : (List.range' 0 (m.pos2.length - 1)).map
          (fun c => (m.gridPoint i1 c, m.gridPoint (i1 + 1) c,
            m.gridPoint i1 (c + 1), m.gridPoint (i1 + 1) (c + 1)))
          = (List.range (m.pos2.length - 1)).map
            (fun c => (m.gridPoint i1 c, m.gridPoint (i1 + 1) c,
              m.gridPoint i1 (c + 1), m.gridPoint (i1 + 1) (c + 1))) := by
        rw [← List.range_eq_range']
      rw [hr0] at hrow hcore1
      obtain ⟨fE, hrest⟩ := ih (i1 + 1) f1
        (v ++ surfFold outerM f ((List.range (m.pos2.length - 1)).map
          (fun c => (m.gridPoint i1 c, m.gridPoint (i1 + 1) c,
            m.gridPoint i1 (c + 1), m.gridPoint (i1 + 1) (c + 1)))))
      have hsplit : (List.range' i1 (n + 1)).flatMap
          (fun a => (List.range (m.pos2.length - 1)).map
            (fun c => (m.gridPoint a c, m.gridPoint (a + 1) c,
              m.gridPoint a (c + 1), m.gridPoint (a + 1) (c + 1))))
          = ((List.range (m.pos2.length - 1)).map
              (fun c => (m.gridPoint i1 c, m.gridPoint (i1 + 1) c,
                m.gridPoint i1 (c + 1), m.gridPoint (i1 + 1) (c + 1))))
            ++ (List.range' (i1 + 1) n).flatMap
              (fun a => (List.range (m.pos2.length - 1)).map
                (fun c => (m.gridPoint a c, m.gridPoint (a + 1) c,
                  m.gridPoint a (c + 1), m.gridPoint (a + 1) (c + 1)))) := by
        rw [List.range'_succ, List.flatMap_cons]
      refine ⟨fE, ?_⟩
      rw [hrow, hrest, surfFold_congr hcore1 outerM, hsplit, surfFold_append,
        List.append_assoc]

/-- Mesh::getSurfaceFragments appends nothing without a surface style, and
otherwise exactly the spec's per-cell tessellation over surfCells. -/
theorem meshSurf_refine (m : Mesh) (outerM : Mat4) (v : List Fragment) :
    m.getSurfaceFragments outerM v
      = v ++ (match m.surfaceprop with
          | none => []
          | some sp => surfFold outerM (surfProto (some sp)) m.surfCells) := by
  cases hsp : m.surfaceprop with
  | none =>
      rw [Mesh.getSurfaceFragments, hsp]
      simp
  | some sp =>
      have core : ∀ (vh v1 v2 : Nat), m.getVecIdxs = (vh, v1, v2) →
          (∀ (hval aval bval : Dbl),
            ((v4def.set vh hval).set v1 aval).set v2 bval
              = ((v4def.set v1 aval).set v2 bval).set vh hval) →
          m.getSurfaceFragments outerM v
            = v ++ surfFold outerM (surfProto (some sp)) m.surfCells := by
        intro vh v1 v2 hv hcorner
        obtain ⟨fE, hE⟩ := meshSurf_outer outerM m vh v1 v2 hv hcorner
          (m.pos1.length - 1) 0 (surfProto (some sp)) v
        have hr0 : (List.range' 0 (m.pos1.length - 1)).flatMap
            (fun a => (List.range (m.pos2.length - 1)).map
              (fun c => (m.gridPoint a c, m.gridPoint (a + 1) c,
                m.gridPoint a (c + 1), m.gridPoint (a + 1) (c + 1))))
            = m.surfCells := by
          rw [← List.range_eq_range']
          rfl
        rw [hr0] at hE
        rw [Mesh.getSurfaceFragments, hsp]
        simp only [hE]
      cases hd : m.dirn with
      | X_DIRN =>
          refine core 0 1 2 (by simp [Mesh.getVecIdxs, hd]) ?_
          intro hval aval bval
          rfl
      | Y_DIRN =>
          refine core 1 2 0 (by simp [Mesh.getVecIdxs, hd]) ?_
          intro hval aval bval
          rfl
      | Z_DIRN =>
          refine core 2 0 1 (by simp [Mesh.getVecIdxs, hd]) ?_
          intro hval aval bval
          rfl

-- ---------------------------------------------------------------------------
-- Points: the loop versus the per-index rule
-- ---------------------------------------------------------------------------

theorem pointsSpecAux_zero (outerM : Mat4) (x y z sizes : List Dbl)
    (fp : Fragment) (i : Nat) :
    pointsSpecAux outerM x y z sizes fp i 0 = [] := rfl

theorem pointsSpecAux_succ (outerM : Mat4) (x y z sizes : List Dbl)
    (fp : Fragment) (i n : Nat) :
    pointsSpecAux outerM x y z sizes fp i (n + 1)
      = (if (vec4to3 (outerM.apply ⟨x.getD i (Dbl.fin 0), y.getD i (Dbl.fin 0),
            z.getD i (Dbl.fin 0), Dbl.fin 1⟩)).isfinite then
          { fp with
              p0 := vec4to3 (outerM.apply ⟨x.getD i (Dbl.fin 0), y.getD i (Dbl.fin 0),
                z.getD i (Dbl.fin 0), Dbl.fin 1⟩)
              pathsize := if sizes.isEmpty then fp.pathsize else sizes.getD i (Dbl.fin 0) }
            :: pointsSpecAux outerM x y z sizes fp.bumpIndex (i + 1) n
        else pointsSpecAux outerM x y z sizes fp (i + 1) n) := rfl

/-- The Points loop appends exactly the spec's per-index fragments, for any
carried fragment agreeing with the prototype on everything the loop does
not overwrite before a push. -/
theorem ptsLoop_eq (outerM : Mat4) (x y z sizes : List Dbl) :
    ∀ (n i : Nat) (f fp : Fragment) (v : List Fragment),
      f.type = fp.type → f.surfaceprop = fp.surfaceprop → f.lineprop = fp.lineprop →
      f.p1 = fp.p1 → f.p2 = fp.p2 → f.params = fp.params → f.index = fp.index →
      (sizes.isEmpty = true → f.pathsize = fp.pathsize) →
      ∃ fE, loopN (ptsStep outerM x y z sizes) i n (f, v)
        = (fE, v ++ pointsSpecAux outerM x y z sizes fp i n) := by
  intro n
  induction n with
  | zero =>
      intro i f fp v _ _ _ _ _ _ _ _
      exact ⟨f, by rw [loopN_zero, pointsSpecAux_zero, List.append_nil]⟩
  | succ n ih =>
      intro i f fp v h1 h2 h3 h4 h5 h6 h7 h8
      rw [loopN_succ, pointsSpecAux_succ]
      set P := vec4to3 (outerM.apply ⟨x.getD i (Dbl.fin 0), y.getD i (Dbl.fin 0),
        z.getD i (Dbl.fin 0), Dbl.fin 1⟩) with hP
      by_cases hempty : sizes.isEmpty = true
      · have hstep : ptsStep outerM x y z sizes i (f, v)
            = if P.isfinite then
                (({ f with p0 := P } : Fragment).bumpIndex, v ++ [({ f with p0 := P } : Fragment)])
              else (({ f with p0 := P } : Fragment), v) := by
          simp only [ptsStep, ← hP, if_pos hempty]
        rw [hstep, if_pos hempty]
        have hpush : ({ f with p0 := P } : Fragment)
            = { fp with p0 := P, pathsize := fp.pathsize } := by
          cases f; cases fp
          simp_all
        by_cases hfin : P.isfinite = true
        · rw [if_pos hfin, if_pos hfin]
          obtain ⟨fE, hE⟩ := ih (i + 1) ({ f with p0 := P } : Fragment).bumpIndex fp.bumpIndex
            (v ++ [({ f with p0 := P } : Fragment)])
            (by simp [Fragment.bumpIndex, h1]) (by simp [Fragment.bumpIndex, h2])
            (by simp [Fragment.bumpIndex, h3]) (by simp [Fragment.bumpIndex, h4])
            (by simp [Fragment.bumpIndex, h5]) (by simp [Fragment.bumpIndex, h6])
            (by simp [Fragment.bumpIndex, h7]) (fun he => by simp [Fragment.bumpIndex, h8 he])
          refine ⟨fE, ?_⟩
          rw [hE, hpush, List.append_assoc, List.singleton_append]
        · rw [if_neg hfin, if_neg hfin]
          exact ih (i + 1) ({ f with p0 := P } : Fragment) fp v
            h1 h2 h3 h4 h5 h6 h7 (fun he => by simp [h8 he])
      · have hstep : ptsStep outerM x y z sizes i (f, v)
            = if P.isfinite then
                (({ f with p0 := P, pathsize := sizes.getD i (Dbl.fin 0) } : Fragment).bumpIndex,
                 v ++ [({ f with p0 := P, pathsize := sizes.getD i (Dbl.fin 0) } : Fragment)])
              else (({ f with p0 := P, pathsize := sizes.getD i (Dbl.fin 0) } : Fragment), v) := by
          simp only [ptsStep, ← hP, if_neg hempty]
        rw [hstep, if_neg hempty]
        have hpush : ({ f with p0 := P, pathsize := sizes.getD i (Dbl.fin 0) } : Fragment)
            = { fp with p0 := P, pathsize := sizes.getD i (Dbl.fin 0) } := by
          cases f; cases fp
          simp_all
        by_cases hfin : P.isfinite = true
        · rw [if_pos hfin, if_pos hfin]
          obtain ⟨fE, hE⟩ := ih (i + 1)
            ({ f with p0 := P, pathsize := sizes.getD i (Dbl.fin 0) } : Fragment).bumpIndex
            fp.bumpIndex
            (v ++ [({ f with p0 := P, pathsize := sizes.getD i (Dbl.fin 0) } : Fragment)])
            (by simp [Fragment.bumpIndex, h1]) (by simp [Fragment.bumpIndex, h2])
            (by simp [Fragment.bumpIndex, h3]) (by simp [Fragment.bumpIndex, h4])
            (by simp [Fragment.bumpIndex, h5]) (by simp [Fragment.bumpIndex, h6])
            (by simp [Fragment.bumpIndex, h7]) (fun he => absurd he hempty)
          refine ⟨fE, ?_⟩
          rw [hE, hpush, List.append_assoc, List.singleton_append]
        · rw [if_neg hfin, if_neg hfin]
          exact ih (i + 1)
            ({ f with p0 := P, pathsize := sizes.getD i (Dbl.fin 0) } : Fragment) fp v
            h1 h2 h3 h4 h5 h6 h7 (fun he => absurd he hempty)

/-- Points::getFragments appends exactly the spec's per-index fragments. -/
theorem points_refine (ps : Points) (outerM : Mat4) (v : List Fragment) :
    ps.getFragments outerM v = v ++ pointsSpec ps outerM (pathProto ps) := by
  obtain ⟨fE, hE⟩ := ptsLoop_eq outerM ps.x ps.y ps.z ps.sizes
    (if ps.sizes.isEmpty then min ps.x.length (min ps.y.length ps.z.length)
     else min (min ps.x.length (min ps.y.length ps.z.length)) ps.sizes.length) 0
    (pathProto ps) (pathProto ps) v rfl rfl rfl rfl rfl rfl rfl (fun _ => rfl)
  show (loopN (ptsStep outerM ps.x ps.y ps.z ps.sizes) 0
      (if ps.sizes.isEmpty then min ps.x.length (min ps.y.length ps.z.length)
       else min (min ps.x.length (min ps.y.length ps.z.length)) ps.sizes.length)
      (pathProto ps, v)).2 = v ++ pointsSpec ps outerM (pathProto ps)
  rw [hE]
  rfl

/-- Triangle::getFragments appends exactly its one fragment. -/
theorem triangle_refine (t : Triangle) (outerM : Mat4) (v : List Fragment) :
    t.getFragments outerM v = v ++ [triFrag t outerM] := rfl

theorem meshLine_refineW (m : Mesh) (outerM : Mat4) (v : List Fragment) :
    m.getLineFragments outerM v = v ++ m.wireSpec outerM :=
  meshLine_refine m outerM v

theorem meshSurf_refineW (m : Mesh) (outerM : Mat4) (v : List Fragment) :
    m.getSurfaceFragments outerM v = v ++ m.surfEmit outerM :=
  meshSurf_refine m outerM v

/-- Mesh::getFragments appends the wireframe fragments and then the surface
fragments. -/
theorem mesh_refine (m : Mesh) (outerM : Mat4) (v : List Fragment) :
    m.getFragments outerM v = v ++ (m.wireSpec outerM ++ m.surfEmit outerM) := by
  show m.getSurfaceFragments outerM (m.getLineFragments outerM v)
      = v ++ (m.wireSpec outerM ++ m.surfEmit outerM)
  rw [meshLine_refineW, meshSurf_refineW, List.append_assoc]

-- ---------------------------------------------------------------------------
-- The traversal only appends
-- ---------------------------------------------------------------------------

mutual
theorem objectFactor (o : Object) (outerM : Mat4) (v : List Fragment) :
    o.getFragments outerM v = v ++ o.getFragments outerM [] := by
  cases o with
  | base =>
      show v = v ++ ([] : List Fragment)
      rw [List.append_nil]
  | tri t =>
      show t.getFragments outerM v = v ++ t.getFragments outerM []
      rw [triangle_refine, triangle_refine, List.nil_append]
  | poly p =>
      show p.getFragments outerM v = v ++ p.getFragments outerM []
      rw [polyLine_refine, polyLine_refine, List.nil_append]
  | mesh m =>
      show m.getFragments outerM v = v ++ m.getFragments outerM []
      rw [mesh_refine, mesh_refine, List.nil_append]
  | pts p =>
      show p.getFragments outerM v = v ++ p.getFragments outerM []
      rw [points_refine, points_refine, List.nil_append]
  | container objM cs =>
      show ObjectList.getFragments cs (outerM.mul objM) v
          = v ++ ObjectList.getFragments cs (outerM.mul objM) []
      exact objectListFactor cs (outerM.mul objM) v
theorem objectListFactor (l : ObjectList) (outerM : Mat4) (v : List Fragment) :
    ObjectList.getFragments l outerM v = v ++ ObjectList.getFragments l outerM [] := by
  cases l with
  | nil =>
      show v = v ++ ([] : List Fragment)
      rw [List.append_nil]
  | cons o rest =>
      show ObjectList.getFragments rest outerM (o.getFragments outerM v)
          = v ++ ObjectList.getFragments rest outerM (o.getFragments outerM [])
      rw [objectFactor o outerM v,
        objectListFactor rest outerM (v ++ o.getFragments outerM []),
        objectListFactor rest outerM (o.getFragments outerM []),
        List.append_assoc]
end

-- ---------------------------------------------------------------------------
-- Membership facts: what the spec-side emissions contain
-- ---------------------------------------------------------------------------

theorem segSpecAux_mem (fl : Fragment) (prev : Vec3) (l : List Vec3) :
    ∀ f ∈ segSpecAux fl prev l,
      f.type = fl.type ∧ f.p0.isfinite = true ∧ f.p1.isfinite = true := by
  induction l generalizing fl prev with
  | nil => intro f hf; simp [segSpecAux_nil] at hf
  | cons p rest ih =>
      intro f hf
      rw [segSpecAux_cons] at hf
      by_cases hc : (p.isfinite && prev.isfinite) = true
      · rw [if_pos hc] at hf
        rcases List.mem_cons.mp hf with hf1 | hf2
        · subst hf1
          simp only [Bool.and_eq_true] at hc
          exact ⟨rfl, hc.1, hc.2⟩
        · obtain ⟨ht, hp⟩ := ih fl.bumpIndex p f hf2
          exact ⟨ht, hp⟩
      · rw [if_neg hc] at hf
        exact ih fl p f hf

theorem segSpec_mem (fl : Fragment) (l : List Vec3) :
    ∀ f ∈ segSpec fl l,
      f.type = fl.type ∧ f.p0.isfinite = true ∧ f.p1.isfinite = true := by
  cases l with
  | nil => intro f hf; simp [segSpec] at hf
  | cons p rest => exact segSpecAux_mem fl p rest

theorem linesSpec_mem (outerM : Mat4) (fl : Fragment) (ls : List (List Vec4)) :
    ∀ f ∈ linesSpec outerM fl ls,
      f.type = fl.type ∧ f.p0.isfinite = true ∧ f.p1.isfinite = true := by
  induction ls generalizing fl with
  | nil => intro f hf; simp [linesSpec_nil] at hf
  | cons ln rest ih =>
      intro f hf
      rw [linesSpec_cons] at hf
      rcases List.mem_append.mp hf with hf1 | hf2
      · exact segSpec_mem fl _ f hf1
      · exact ih (fl.addIndex _) f hf2

theorem cellFrags_mem (outerM : Mat4) (fs : Fragment) (c00 c10 c01 c11 : Vec4) :
    ∀ f ∈ cellFrags outerM fs c00 c10 c01 c11, f.type = fs.type := by
  intro f hf
  rw [cellFrags] at hf
  by_cases hc : (c00.isfinite && c10.isfinite && c01.isfinite && c11.isfinite) = true
  · rw [if_pos hc] at hf
    rcases List.mem_cons.mp hf with hf1 | hf2
    · subst hf1; rfl
    · rcases List.mem_cons.mp hf2 with hf3 | hf4
      · subst hf3; rfl
      · simp at hf4
  · rw [if_neg hc] at hf
    simp at hf

theorem surfFold_mem (outerM : Mat4) (fs : Fragment)
    (cs : List (Vec4 × Vec4 × Vec4 × Vec4)) :
    ∀ f ∈ surfFold outerM fs cs, f.type = fs.type := by
  induction cs generalizing fs with
  | nil => intro f hf; simp [surfFold_nil] at hf
  | cons c rest ih =>
      intro f hf
      rw [surfFold_cons] at hf
      rcases List.mem_append.mp hf with hf1 | hf2
      · exact cellFrags_mem outerM fs c.1 c.2.1 c.2.2.1 c.2.2.2 f hf1
      · exact ih (fs.addIndex _) f hf2

theorem pointsSpecAux_mem (outerM : Mat4) (x y z sizes : List Dbl) :
    ∀ (n i : Nat) (fp : Fragment) (f : Fragment),
      f ∈ pointsSpecAux outerM x y z sizes fp i n →
      f.type = fp.type ∧ f.p0.isfinite = true := by
  intro n
  induction n with
  | zero => intro i fp f hf; simp [pointsSpecAux_zero] at hf
  | succ n ih =>
      intro i fp f hf
      rw [pointsSpecAux_succ] at hf
      by_cases hfin : (vec4to3 (outerM.apply ⟨x.getD i (Dbl.fin 0), y.getD i (Dbl.fin 0),
          z.getD i (Dbl.fin 0), Dbl.fin 1⟩)).isfinite = true
      · rw [if_pos hfin] at hf
        rcases List.mem_cons.mp hf with hf1 | hf2
        · subst hf1
          exact ⟨rfl, hfin⟩
        · exact ih (i + 1) fp.bumpIndex f hf2
      · rw [if_neg hfin] at hf
        exact ih (i + 1) fp f hf

/- Every fragment of the traversal's output is either an inherited element
of the initial sequence, of triangle kind, or finite in its used points. -/
mutual
theorem objectMem (o : Object) (outerM : Mat4) (v : List Fragment)
    (f : Fragment) (hf : f ∈ o.getFragments outerM v) :
    f ∈ v ∨ f.type = .FR_TRIANGLE ∨ f.usedPointsFinite = true := by
  cases o with
  | base => exact Or.inl hf
  | tri t =>
      replace hf : f ∈ t.getFragments outerM v := hf
      rw [triangle_refine] at hf
      rcases List.mem_append.mp hf with hf1 | hf2
      · exact Or.inl hf1
      · rcases List.mem_cons.mp hf2 with hf3 | hf4
        · subst hf3; exact Or.inr (Or.inl rfl)
        · simp at hf4
  | poly p =>
      replace hf : f ∈ p.getFragments outerM v := hf
      rw [polyLine_refine] at hf
      rcases List.mem_append.mp hf with hf1 | hf2
      · exact Or.inl hf1
      · obtain ⟨ht, h0, h1⟩ := segSpec_mem _ _ f hf2
        refine Or.inr (Or.inr ?_)
        rw [Fragment.usedPointsFinite, ht]
        show (f.p0.isfinite && f.p1.isfinite) = true
        rw [h0, h1]
        rfl
  | mesh m =>
      replace hf : f ∈ m.getFragments outerM v := hf
      rw [mesh_refine] at hf
      rcases List.mem_append.mp hf with hf1 | hf2
      · exact Or.inl hf1
      · rcases List.mem_append.mp hf2 with hw | hs
        · cases hlp : m.lineprop with
          | none => rw [Mesh.wireSpec, hlp] at hw; simp at hw
          | some lp =>
              rw [Mesh.wireSpec, hlp] at hw
              obtain ⟨ht, h0, h1⟩ := linesSpec_mem outerM (lineProto (some lp)) m.lines f hw
              refine Or.inr (Or.inr ?_)
              rw [Fragment.usedPointsFinite, ht]
              show (f.p0.isfinite && f.p1.isfinite) = true
              rw [h0, h1]
              rfl
        · cases hsp : m.surfaceprop with
          | none => rw [Mesh.surfEmit, hsp] at hs; simp at hs
          | some sp =>
              rw [Mesh.surfEmit, hsp] at hs
              have ht := surfFold_mem outerM (surfProto (some sp)) m.surfCells f hs
              exact Or.inr (Or.inl ht)
  | pts p =>
      replace hf : f ∈ p.getFragments outerM v := hf
      rw [points_refine] at hf
      rcases List.mem_append.mp hf with hf1 | hf2
      · exact Or.inl hf1
      · obtain ⟨ht, h0⟩ := pointsSpecAux_mem outerM p.x p.y p.z p.sizes _ 0 (pathProto p) f hf2
        refine Or.inr (Or.inr ?_)
        rw [Fragment.usedPointsFinite, ht]
        show f.p0.isfinite = true
        exact h0
  | container objM cs =>
      exact objectListMem cs (outerM.mul objM) v f hf
theorem objectListMem (l : ObjectList) (outerM : Mat4) (v : List Fragment)
    (f : Fragment) (hf : f ∈ ObjectList.getFragments l outerM v) :
    f ∈ v ∨ f.type = .FR_TRIANGLE ∨ f.usedPointsFinite = true := by
  cases l with
  | nil => exact Or.inl hf
  | cons o rest =>
      have hf2 : f ∈ ObjectList.getFragments rest outerM (o.getFragments outerM v) := hf
      rcases objectListMem rest outerM (o.getFragments outerM v) f hf2 with
        h | h | h
      · exact objectMem o outerM v f h
      · exact Or.inr (Or.inl h)
      · exact Or.inr (Or.inr h)
end

-- ---------------------------------------------------------------------------
-- Sequence indices: every emission pass is a gap-free run
-- ---------------------------------------------------------------------------

theorem segSpecAux_map_index (fl : Fragment) (prev : Vec3) (l : List Vec3) :
    (segSpecAux fl prev l).map Fragment.index
      = List.range' fl.index (segSpecAux fl prev l).length := by
  induction l generalizing fl prev with
  | nil => rw [segSpecAux_nil]; rfl
  | cons p rest ih =>
      rw [segSpecAux_cons]
      by_cases hc : (p.isfinite && prev.isfinite) = true
      · rw [if_pos hc, List.map_cons, List.length_cons, List.range'_succ]
        have hhead : ({ fl with p0 := p, p1 := prev } : Fragment).index = fl.index := rfl
        rw [hhead, ih]
        rfl
      · rw [if_neg hc]
        exact ih fl p

theorem segSpec_map_index (fl : Fragment) (l : List Vec3) :
    (segSpec fl l).map Fragment.index = List.range' fl.index (segSpec fl l).length := by
  cases l with
  | nil => rfl
  | cons p rest => exact segSpecAux_map_index fl p rest

theorem linesSpec_map_index (outerM : Mat4) (fl : Fragment) (ls : List (List Vec4)) :
    (linesSpec outerM fl ls).map Fragment.index
      = List.range' fl.index (linesSpec outerM fl ls).length := by
  induction ls generalizing fl with
  | nil => rfl
  | cons ln rest ih =>
      rw [linesSpec_cons, List.map_append, List.length_append, segSpec_map_index, ih]
      have haddidx : (fl.addIndex (segSpec fl
          (ln.map (fun p => vec4to3 (outerM.apply p)))).length).index
          = fl.index + (segSpec fl (ln.map (fun p => vec4to3 (outerM.apply p)))).length := rfl
      rw [haddidx, List.range'_append_1, Nat.add_comm ((linesSpec outerM _ rest).length)]

theorem cellFrags_map_index (outerM : Mat4) (fs : Fragment) (c00 c10 c01 c11 : Vec4) :
    (cellFrags outerM fs c00 c10 c01 c11).map Fragment.index
      = List.range' fs.index (cellFrags outerM fs c00 c10 c01 c11).length := by
  rw [cellFrags]
  by_cases hc : (c00.isfinite && c10.isfinite && c01.isfinite && c11.isfinite) = true
  · rw [if_pos hc]
    rfl
  · rw [if_neg hc]
    rfl

theorem surfFold_map_index (outerM : Mat4) (fs : Fragment)
    (cs : List (Vec4 × Vec4 × Vec4 × Vec4)) :
    (surfFold outerM fs cs).map Fragment.index
      = List.range' fs.index (surfFold outerM fs cs).length := by
  induction cs generalizing fs with
  | nil => rfl
  | cons c rest ih =>
      rw [surfFold_cons, List.map_append, List.length_append, cellFrags_map_index, ih]
      have haddidx : (fs.addIndex (cellFrags outerM fs c.1 c.2.1 c.2.2.1 c.2.2.2).length).index
          = fs.index + (cellFrags outerM fs c.1 c.2.1 c.2.2.1 c.2.2.2).length := rfl
      rw [haddidx, List.range'_append_1, Nat.add_comm ((surfFold outerM _ rest).length)]

theorem pointsSpecAux_map_index (outerM : Mat4) (x y z sizes : List Dbl) :
    ∀ (n i : Nat) (fp : Fragment),
      (pointsSpecAux outerM x y z sizes fp i n).map Fragment.index
        = List.range' fp.index (pointsSpecAux outerM x y z sizes fp i n).length := by
  intro n
  induction n with
  | zero => intro i fp; rfl
  | succ n ih =>
      intro i fp
      rw [pointsSpecAux_succ]
      by_cases hfin : (vec4to3 (outerM.apply ⟨x.getD i (Dbl.fin 0), y.getD i (Dbl.fin 0),
          z.getD i (Dbl.fin 0), Dbl.fin 1⟩)).isfinite = true
      · rw [if_pos hfin, List.map_cons, List.length_cons, List.range'_succ, ih]
        rfl
      · rw [if_neg hfin]
        exact ih (i + 1) fp

/-- A child list's traversal appends each child's own emission in
insertion order. -/
theorem objectList_emittedCat (l : ObjectList) (outerM : Mat4) (v : List Fragment) :
    ObjectList.getFragments l outerM v = v ++ l.emittedCat outerM := by
  cases l with
  | nil =>
      show v = v ++ ([] : List Fragment)
      rw [List.append_nil]
  | cons o rest =>
      show ObjectList.getFragments rest outerM (o.getFragments outerM v)
          = v ++ ObjectList.emittedCat (.cons o rest) outerM
      rw [objectList_emittedCat rest outerM (o.getFragments outerM v),
        objectFactor o outerM v, List.append_assoc]
      rfl

theorem segSpecAux_length_le (fl : Fragment) (prev : Vec3) (l : List Vec3) :
    (segSpecAux fl prev l).length ≤ l.length := by
  induction l generalizing fl prev with
  | nil => exact Nat.le_refl 0
  | cons p rest ih =>
      rw [segSpecAux_cons]
      by_cases hc : (p.isfinite && prev.isfinite) = true
      · rw [if_pos hc, List.length_cons, List.length_cons]
        exact Nat.succ_le_succ (ih fl.bumpIndex p)
      · rw [if_neg hc, List.length_cons]
        exact Nat.le_succ_of_le (ih fl p)

/-- A point list walked over k values yields at most k-1 segments. -/
theorem segSpec_length_le (fl : Fragment) (l : List Vec3) :
    (segSpec fl l).length ≤ l.length - 1 := by
  cases l with
  | nil => exact Nat.le_refl 0
  | cons p rest =>
      show (segSpecAux fl p rest).length ≤ (p :: rest).length - 1
      rw [List.length_cons, Nat.add_sub_cancel]
      exact segSpecAux_length_le fl p rest

theorem segSpecAux_consec (fl : Fragment) (prev : Vec3) (l : List Vec3) (d : Vec3) :
    ∀ f ∈ segSpecAux fl prev l,
      ∃ j, j < l.length ∧ f.p1 = (prev :: l).getD j d ∧ f.p0 = l.getD j d := by
  induction l generalizing fl prev with
  | nil => intro f hf; simp [segSpecAux_nil] at hf
  | cons p rest ih =>
      intro f hf
      rw [segSpecAux_cons] at hf
      by_cases hc : (p.isfinite && prev.isfinite) = true
      · rw [if_pos hc] at hf
        rcases List.mem_cons.mp hf with hf1 | hf2
        · subst hf1
          exact ⟨0, Nat.succ_pos _, rfl, rfl⟩
        · obtain ⟨j, hj, h1, h0⟩ := ih fl.bumpIndex p f hf2
          exact ⟨j + 1, Nat.succ_lt_succ hj, h1, h0⟩
      · rw [if_neg hc] at hf
        obtain ⟨j, hj, h1, h0⟩ := ih fl p f hf
        exact ⟨j + 1, Nat.succ_lt_succ hj, h1, h0⟩

/-- Every emitted segment joins two consecutive points of the walked list. -/
theorem segSpec_consec (fl : Fragment) (l : List Vec3) (d : Vec3) :
    ∀ f ∈ segSpec fl l,
      ∃ j, j + 1 < l.length ∧ f.p1 = l.getD j d ∧ f.p0 = l.getD (j + 1) d := by
  cases l with
  | nil => intro f hf; simp [segSpec] at hf
  | cons p rest =>
      intro f hf
      obtain ⟨j, hj, h1, h0⟩ := segSpecAux_consec fl p rest d f hf
      refine ⟨j, ?_, h1, h0⟩
      rw [List.length_cons]
      exact Nat.succ_lt_succ hj

-- ---------------------------------------------------------------------------
-- Claims
-- ---------------------------------------------------------------------------

/-- C1 counterexample: the output-finiteness invariant fails as stated.  A
Triangle with a NaN point emits, under the identity transform, a fragment
with a non-finite point (Triangle::getFragments filters nothing); and a
Mesh surface cell with finite corners emits non-finite points under a
transform with a NaN entry (the cell check is pre-transform only). -/
theorem C1_counterexample :
    (¬ (∀ f ∈ Object.getFragments (.tri triC1) Mat4.idM [], f.usedPointsFinite = true))
    ∧ (¬ (∀ f ∈ Object.getFragments (.mesh meshC3) matC1 [], f.usedPointsFinite = true)) := by
  constructor <;> decide

/-- C1 (amended): for every object tree, transform and initial output
sequence, every fragment the traversal places in the output is either an
inherited element of the initial sequence, or of Triangle kind (emitted
unchecked by Triangle objects, and checked only pre-transform by Mesh
surface generation), or finite in all the point slots its kind uses; in
particular every LineSegment and Path/PointSprite fragment is finite. -/
theorem C1_finiteness_amended (o : Object) (outerM : Mat4) (v : List Fragment)
    (f : Fragment) (hf : f ∈ o.getFragments outerM v) :
    f ∈ v ∨ f.type = .FR_TRIANGLE ∨ f.usedPointsFinite = true :=
  objectMem o outerM v f hf

/-- C1 witness: the amended theorem applied to the polyline example's one
emitted fragment. -/
theorem C1_finiteness_amended_witness :
    (fragC1w ∈ Object.getFragments (.poly plC4) Mat4.idM [])
    ∧ (fragC1w ∈ ([] : List Fragment) ∨ fragC1w.type = .FR_TRIANGLE
        ∨ fragC1w.usedPointsFinite = true) :=
  ⟨by decide, C1_finiteness_amended (.poly plC4) Mat4.idM [] fragC1w (by decide)⟩

/-- C2 counterexample: a Mesh with both a line and a surface style does not
emit one gap-free 0,1,2,... sequence: the wireframe fragments are indexed
0,1,2,3 and the surface fragments restart at 0 (each sub-pass constructs
its own fragment, whose sequence index starts at 0). -/
theorem C2_counterexample :
    (meshC2.getFragments Mat4.idM []).map Fragment.index = [0, 1, 2, 3, 0, 1]
    ∧ (meshC2.getFragments Mat4.idM []).map Fragment.index
        ≠ List.range (meshC2.getFragments Mat4.idM []).length := by
  constructor <;> decide

/-- C2 (amended): within one traversal each emission pass is gap-free from
0: Triangle, PolyLine and Points emissions carry indices 0,1,2,... with no
gaps even when candidates are dropped; a Mesh's emission is its wireframe
fragments followed by its surface fragments, and each of those two passes
is its own gap-free 0,1,2,... sequence (the surface pass restarts at 0
rather than continuing the wireframe numbering). -/
theorem C2_indices_amended :
    (∀ (t : Triangle) (outerM : Mat4),
      (t.getFragments outerM []).map Fragment.index
        = List.range (t.getFragments outerM []).length)
    ∧ (∀ (pl : PolyLine) (outerM : Mat4),
      (pl.getFragments outerM []).map Fragment.index
        = List.range (pl.getFragments outerM []).length)
    ∧ (∀ (ps : Points) (outerM : Mat4),
      (ps.getFragments outerM []).map Fragment.index
        = List.range (ps.getFragments outerM []).length)
    ∧ (∀ (m : Mesh) (outerM : Mat4),
      m.getFragments outerM []
          = m.getLineFragments outerM [] ++ m.getSurfaceFragments outerM []
        ∧ (m.getLineFragments outerM []).map Fragment.index
            = List.range (m.getLineFragments outerM []).length
        ∧ (m.getSurfaceFragments outerM []).map Fragment.index
            = List.range (m.getSurfaceFragments outerM []).length) := by
  refine ⟨?_, ?_, ?_, ?_⟩
  · intro t outerM
    rfl
  · intro pl outerM
    rw [polyLine_refine, List.nil_append, segSpec_map_index,
      show (lineProto pl.lineprop).index = 0 from rfl, ← List.range_eq_range']
  · intro ps outerM
    rw [points_refine, List.nil_append]
    show (pointsSpecAux outerM ps.x ps.y ps.z ps.sizes (pathProto ps) 0
        (if ps.sizes.isEmpty then min ps.x.length (min ps.y.length ps.z.length)
         else min (min ps.x.length (min ps.y.length ps.z.length)) ps.sizes.length)).map
          Fragment.index
      = List.range (pointsSpecAux outerM ps.x ps.y ps.z ps.sizes (pathProto ps) 0
        (if ps.sizes.isEmpty then min ps.x.length (min ps.y.length ps.z.length)
         else min (min ps.x.length (min ps.y.length ps.z.length)) ps.sizes.length)).length
    rw [pointsSpecAux_map_index, show (pathProto ps).index = 0 from rfl,
      ← List.range_eq_range']
  · intro m outerM
    refine ⟨?_, ?_, ?_⟩
    · show m.getSurfaceFragments outerM (m.getLineFragments outerM []) = _
      rw [meshSurf_refineW m outerM (m.getLineFragments outerM []),
        meshSurf_refineW m outerM [], List.nil_append]
    · rw [meshLine_refineW m outerM [], List.nil_append]
      cases hlp : m.lineprop with
      | none =>
          simp only [Mesh.wireSpec, hlp]
          rfl
      | some lp =>
          simp only [Mesh.wireSpec, hlp]
          rw [linesSpec_map_index, show (lineProto (some lp)).index = 0 from rfl,
            ← List.range_eq_range']
    · rw [meshSurf_refineW m outerM [], List.nil_append]
      cases hsp : m.surfaceprop with
      | none =>
          simp only [Mesh.surfEmit, hsp]
          rfl
      | some sp =>
          simp only [Mesh.surfEmit, hsp]
          rw [surfFold_map_index, show (surfProto (some sp)).index = 0 from rfl,
            ← List.range_eq_range']

/-- C3: for every Mesh with a surface style, the surface emission is exactly
the fold over grid cells of cellFrags - a cell is skipped whole unless all
4 pre-transform corners are finite in every coordinate, and otherwise emits
exactly the two triangles (corner00, corner10, corner01) and
(corner11, corner10, corner01), both bumping the index; the spec's example
mesh emits exactly those 2 triangles with the shared corner10-corner01
diagonal. -/
theorem C3_surface_tessellation :
    (∀ (m : Mesh) (outerM : Mat4) (v : List Fragment),
      m.getSurfaceFragments outerM v = v ++ (match m.surfaceprop with
        | none => []
        | some sp => surfFold outerM (surfProto (some sp)) m.surfCells))
    ∧ (∀ (outerM : Mat4) (fs : Fragment) (c00 c10 c01 c11 : Vec4),
      (c00.isfinite && c10.isfinite && c01.isfinite && c11.isfinite) = false →
      cellFrags outerM fs c00 c10 c01 c11 = [])
    ∧ ((meshC3.getSurfaceFragments Mat4.idM []).map (fun f => (f.p0, f.p1, f.p2))
        = [(⟨.fin 0, .fin 0, .fin 0⟩, ⟨.fin 1, .fin 0, .fin 0⟩, ⟨.fin 0, .fin 1, .fin 0⟩),
           (⟨.fin 1, .fin 1, .fin 1⟩, ⟨.fin 1, .fin 0, .fin 0⟩, ⟨.fin 0, .fin 1, .fin 0⟩)]) := by
  refine ⟨meshSurf_refine, ?_, by decide⟩
  intro outerM fs c00 c10 c01 c11 h
  rw [cellFrags, if_neg (by rw [h]; exact Bool.false_ne_true)]

/-- C3 witness: the skip half applied to a cell with a NaN corner. -/
theorem C3_surface_tessellation_witness :
    ((Vec4.isfinite ⟨.nan, .fin 0, .fin 0, .fin 1⟩ && Vec4.isfinite v4def
        && Vec4.isfinite v4def && Vec4.isfinite v4def) = false)
    ∧ cellFrags Mat4.idM (surfProto (some 0)) ⟨.nan, .fin 0, .fin 0, .fin 1⟩ v4def v4def v4def
        = [] :=
  ⟨by decide, C3_surface_tessellation.2.1 Mat4.idM (surfProto (some 0))
    ⟨.nan, .fin 0, .fin 0, .fin 1⟩ v4def v4def v4def (by decide)⟩

/-- C4: PolyLine::getFragments appends exactly the consecutive-finite-pair
segments of its stored points transformed by the matrix (the code's
isfinite-of-sum test equals the pair's-coordinates-all-finite test);
polylines of fewer than 2 points emit nothing; and the spec's NaN example
emits exactly the one 0-to-1 segment. -/
theorem C4_polyline_segments :
    (∀ (pl : PolyLine) (outerM : Mat4) (v : List Fragment),
      pl.getFragments outerM v
        = v ++ segSpec (lineProto pl.lineprop)
            (pl.points.map (fun p => vec4to3 (outerM.apply p))))
    ∧ (∀ (a b : Vec3), (a.add b).isfinite = (a.isfinite && b.isfinite))
    ∧ (∀ (lp : Option Nat) (outerM : Mat4) (v : List Fragment),
      (PolyLine.mk [] lp).getFragments outerM v = v)
    ∧ (∀ (p : Vec4) (lp : Option Nat) (outerM : Mat4) (v : List Fragment),
      (PolyLine.mk [p] lp).getFragments outerM v = v)
    ∧ ((plC4.getFragments Mat4.idM []).map (fun f => (f.p1, f.p0))
        = [(⟨.fin 0, .fin 0, .fin 0⟩, ⟨.fin 1, .fin 0, .fin 0⟩)]) := by
  refine ⟨polyLine_refine, vec3Add_isfinite, ?_, ?_, by decide⟩
  · intro lp outerM v
    rw [polyLine_refine]
    rw [show ((PolyLine.mk [] lp).points.map (fun p => vec4to3 (outerM.apply p))) = [] from rfl]
    rw [show segSpec (lineProto lp) [] = [] from rfl, List.append_nil]
  · intro p lp outerM v
    rw [polyLine_refine]
    rw [show ((PolyLine.mk [p] lp).points.map (fun q => vec4to3 (outerM.apply q)))
      = [vec4to3 (outerM.apply p)] from rfl]
    rw [show segSpec (lineProto lp) [vec4to3 (outerM.apply p)] = [] from rfl, List.append_nil]

/-- C5: ObjectContainer::getFragments passes totM = outerM*objM (outer on
the left) to each owned child in insertion order, so the output is the
initial sequence followed by child 0's fragments in full, then child 1's,
and so on; nested containers compose multiplicatively outermost-first. -/
theorem C5_container_traversal :
    (∀ (outerM objM : Mat4) (cs : ObjectList) (v : List Fragment),
      Object.getFragments (.container objM cs) outerM v
        = ObjectList.getFragments cs (outerM.mul objM) v)
    ∧ (∀ (cs : ObjectList) (outerM : Mat4) (v : List Fragment),
      ObjectList.getFragments cs outerM v = v ++ cs.emittedCat outerM)
    ∧ (∀ (o : Object) (rest : ObjectList) (outerM : Mat4),
      ObjectList.emittedCat (.cons o rest) outerM
        = o.getFragments outerM [] ++ rest.emittedCat outerM)
    ∧ (∀ (outerM objM1 objM2 : Mat4) (cs : ObjectList) (v : List Fragment),
      Object.getFragments (.container objM1 (.cons (.container objM2 cs) .nil)) outerM v
        = ObjectList.getFragments cs ((outerM.mul objM1).mul objM2) v) := by
  refine ⟨fun _ _ _ _ => rfl, objectList_emittedCat, fun _ _ _ => rfl, fun _ _ _ _ _ => rfl⟩

/-- C6: the direction enum selects (heightAxis, axis1, axis2) as X->(0,1,2),
Y->(1,2,0), Z->(2,0,1); the grid point for (i1,i2) carries pos1[i1] on
axis1, pos2[i2] on axis2 and heights[i1*|pos2|+i2] on the height axis; the
wireframe pass emits nothing without a line style and otherwise walks first
axis1 against each fixed pos2 value then axis2 against each fixed pos1
value (the lines of Mesh.lines, in that order), emitting consecutive finite
pairs as in the PolyLine rule; and the surface pass uses the same grid
points per cell. -/
theorem C6_mesh_axes :
    (∀ (p1 p2 h : List Dbl) (lp sp : Option Nat),
      (Mesh.mk p1 p2 h .X_DIRN lp sp).getVecIdxs = (0, 1, 2)
      ∧ (Mesh.mk p1 p2 h .Y_DIRN lp sp).getVecIdxs = (1, 2, 0)
      ∧ (Mesh.mk p1 p2 h .Z_DIRN lp sp).getVecIdxs = (2, 0, 1))
    ∧ (∀ (m : Mesh) (i1 i2 : Nat),
      (m.gridPoint i1 i2).get m.getVecIdxs.1
          = m.heights.getD (i1 * m.pos2.length + i2) (Dbl.fin 0)
      ∧ (m.gridPoint i1 i2).get m.getVecIdxs.2.1 = m.pos1.getD i1 (Dbl.fin 0)
      ∧ (m.gridPoint i1 i2).get m.getVecIdxs.2.2 = m.pos2.getD i2 (Dbl.fin 0))
    ∧ (∀ (m : Mesh) (outerM : Mat4) (v : List Fragment),
      m.getLineFragments outerM v = v ++ (match m.lineprop with
        | none => []
        | some lp => linesSpec outerM (lineProto (some lp)) m.lines))
    ∧ (∀ (m : Mesh) (outerM : Mat4) (v : List Fragment),
      m.getSurfaceFragments outerM v = v ++ (match m.surfaceprop with
        | none => []
        | some sp => surfFold outerM (surfProto (some sp)) m.surfCells)) := by
  refine ⟨fun _ _ _ _ _ => ⟨rfl, rfl, rfl⟩, ?_, meshLine_refine, meshSurf_refine⟩
  intro m i1 i2
  obtain ⟨p1, p2, h, d, lp, sp⟩ := m
  cases d <;>
    exact ⟨rfl, rfl, rfl⟩

/-- C7: Points::getFragments processes exactly
min(|x|,|y|,|z|) indices, further truncated by |sizes| when sizes is
non-empty, emitting one path fragment per index exactly when the
transformed point is finite, with pathSize from sizes when present and the
fixed default 1 otherwise; the spec's example with sizes=[5] emits exactly
1 fragment, carrying pathSize 5. -/
theorem C7_points_truncation :
    (∀ (ps : Points) (outerM : Mat4) (v : List Fragment),
      ps.getFragments outerM v = v ++ pointsSpec ps outerM (pathProto ps))
    ∧ ((ptsC7.getFragments Mat4.idM []).length = 1)
    ∧ ((ptsC7.getFragments Mat4.idM []).map (fun f => (f.p0, f.pathsize))
        = [(⟨.fin 0, .fin 0, .fin 0⟩, .fin 5)]) := by
  refine ⟨points_refine, by decide, by decide⟩

/-- C8: Triangle::getFragments appends exactly one FR_TRIANGLE fragment,
unconditionally (also for a NaN point), with the surface style set, no line
style, and the 3 stored points transformed by the matrix; under the
identity transform the spec's example emits its points unchanged. -/
theorem C8_triangle_unconditional :
    (∀ (t : Triangle) (outerM : Mat4) (v : List Fragment),
      t.getFragments outerM v = v ++ [triFrag t outerM])
    ∧ (∀ (t : Triangle) (outerM : Mat4),
      (triFrag t outerM).type = .FR_TRIANGLE
      ∧ (triFrag t outerM).surfaceprop = t.surfaceprop
      ∧ (triFrag t outerM).lineprop = none
      ∧ (triFrag t outerM).p0 = vec4to3 (outerM.apply t.p0)
      ∧ (triFrag t outerM).p1 = vec4to3 (outerM.apply t.p1)
      ∧ (triFrag t outerM).p2 = vec4to3 (outerM.apply t.p2))
    ∧ ((triC8.getFragments Mat4.idM []).map (fun f => (f.p0, f.p1, f.p2))
        = [(⟨.fin 0, .fin 0, .fin 0⟩, ⟨.fin 1, .fin 0, .fin 0⟩, ⟨.fin 0, .fin 1, .fin 0⟩)])
    ∧ ((triC1.getFragments Mat4.idM []).length = 1) := by
  refine ⟨triangle_refine, fun _ _ => ⟨rfl, rfl, rfl, rfl, rfl, rfl⟩, by decide, by decide⟩

/-- C9: every getFragments variant only appends to the output sequence
(the prior elements survive unchanged, in place, as a prefix), and the base
Object's getFragments appends nothing. -/
theorem C9_append_only :
    (∀ (o : Object) (outerM : Mat4) (v : List Fragment),
      ∃ w, o.getFragments outerM v = v ++ w)
    ∧ (∀ (outerM : Mat4) (v : List Fragment),
      Object.getFragments .base outerM v = v) :=
  ⟨fun o outerM v => ⟨o.getFragments outerM [], objectFactor o outerM v⟩,
   fun _ _ => rfl⟩

/-- C10: each wireframe segment joins two consecutive points of one walked
grid line: the wireframe output is the per-line concatenation of the
consecutive-pair rule (no fragment joins the end of one line to the start
of the next, although the point shuffle carries over), and a line walked
over k values yields at most k-1 segments, each joining points j and j+1 of
its line. -/
theorem C10_wireframe_lines :
    (∀ (m : Mesh) (outerM : Mat4) (v : List Fragment),
      m.getLineFragments outerM v = v ++ (match m.lineprop with
        | none => []
        | some lp => linesSpec outerM (lineProto (some lp)) m.lines))
    ∧ (∀ (fl : Fragment) (l : List Vec3), (segSpec fl l).length ≤ l.length - 1)
    ∧ (∀ (fl : Fragment) (l : List Vec3) (d : Vec3) (f : Fragment),
      f ∈ segSpec fl l →
      ∃ j, j + 1 < l.length ∧ f.p1 = l.getD j d ∧ f.p0 = l.getD (j + 1) d) :=
  ⟨meshLine_refine, segSpec_length_le, fun fl l d f hf => segSpec_consec fl l d f hf⟩

/-- C10 witness: the consecutive-points characterization applied to the one
segment of a two-point line. -/
theorem C10_wireframe_lines_witness :
    (fragC1w ∈ segSpec (lineProto (some 7))
      [⟨.fin 0, .fin 0, .fin 0⟩, ⟨.fin 1, .fin 0, .fin 0⟩])
    ∧ (∃ j, j + 1 < ([⟨.fin 0, .fin 0, .fin 0⟩, ⟨.fin 1, .fin 0, .fin 0⟩] : List Vec3).length
        ∧ fragC1w.p1 = ([⟨.fin 0, .fin 0, .fin 0⟩, ⟨.fin 1, .fin 0, .fin 0⟩] : List Vec3).getD j zeroV3
        ∧ fragC1w.p0 = ([⟨.fin 0, .fin 0, .fin 0⟩, ⟨.fin 1, .fin 0, .fin 0⟩] : List Vec3).getD (j + 1) zeroV3) :=
  ⟨by decide, C10_wireframe_lines.2.2 (lineProto (some 7))
    [⟨.fin 0, .fin 0, .fin 0⟩, ⟨.fin 1, .fin 0, .fin 0⟩] zeroV3 fragC1w (by decide)⟩
